import Mathlib

/-!
Shallow embedding of the dynamic-form-builder core engine
(`src/services/DerivedFieldCalculator.ts` and the `ValidationEngine`
source file) together with proofs of the specification claims.

JavaScript values are modelled by the inductive type `Value`; JS objects
(`Record<string, any>`) are modelled as association lists with
insert-or-overwrite update (`setA`), key-presence test (`hasKeyA`, the JS
`in` operator) and first-match lookup (`lookupA`).  In-place mutation of
TypeScript objects is modelled by explicit state passing: functions that
mutate an argument return the updated copy.  The dynamic `new Function`
evaluation step of the expression sandbox cannot be shallowly embedded;
it is abstracted as an `Oracle` parameter, and every theorem that touches
it either holds for all oracles or is instantiated at a concrete one.
-/

namespace FormCore

/-- Model of a JavaScript runtime value as far as the core engine
inspects it: `null`/`undefined`, the primitives, arrays, plain objects
(a list of enumerable own properties) and `Date` objects (which have no
enumerable own properties). -/
inductive Value where
  | null : Value
  | undefined : Value
  | bool (b : Bool) : Value
  | num (n : Int) : Value
  | str (s : String) : Value
  | arr (elems : List Value) : Value
  | obj (props : List (String × Value)) : Value
  | date (time : Int) : Value

/-- A JS `Record<string, T>` as an association list (first match wins). -/
abbrev Assoc (α : Type) := List (String × α)

/-- Key-presence test: the JS `key in record` operator. -/
def hasKeyA {α : Type} (m : Assoc α) (k : String) : Bool :=
  m.any (fun e => e.1 == k)

/-- Lookup of `record[key]`, `none` when the key is absent. -/
def lookupA {α : Type} (m : Assoc α) (k : String) : Option α :=
  match m with
  | [] => none
  | e :: rest => if e.1 == k then some e.2 else lookupA rest k

/-- Assignment `record[key] = v`: overwrite the first binding of the key
in place, or append a fresh binding (JS property-insertion order). -/
def setA {α : Type} (m : Assoc α) (k : String) (v : α) : Assoc α :=
  match m with
  | [] => [(k, v)]
  | e :: rest => if e.1 == k then (k, v) :: rest else e :: setA rest k v

/-- A JS form-values record: field id to current value. -/
abbrev Rmap := Assoc Value

/-- Reading `record[key]` in JS yields `undefined` for an absent key. -/
def getJS (m : Rmap) (k : String) : Value :=
  (lookupA m k).getD Value.undefined

/- ----------------------------------------------------------------- -/
/- Validation engine (ValidationEngine source file)                  -/
/- ----------------------------------------------------------------- -/

/-- The closed enumeration of validation rule types. -/
inductive RuleType where
  | notEmpty : RuleType
  | minLength : RuleType
  | maxLength : RuleType
  | email : RuleType
  | customPassword : RuleType
deriving DecidableEq, Repr

/-- `ValidationRule` of `types/form.ts`: the optional `value` is the
numeric bound used by the length rules. -/
structure ValidationRule where
  type : RuleType
  value : Option Int := none
  message : String
deriving DecidableEq, Repr

/-- `DerivedFieldConfig` of `types/form.ts`. -/
structure DerivedFieldConfig where
  parentFields : List String
  computationLogic : String
deriving DecidableEq, Repr

/-- `FormField` of `types/form.ts`.  `validation` is an `Option` because
a JS field may carry `undefined` instead of an array; the distinction
matters for the aliasing behaviour of `validateForm`. -/
structure FormField where
  id : String
  fieldType : String
  label : String
  required : Bool
  defaultValue : Option Value := none
  validation : Option (List ValidationRule) := none
  options : Option (List String) := none
  derivedFrom : Option DerivedFieldConfig := none

/-- `FormSchema` of `types/form.ts` (`createdAt` as an opaque timestamp). -/
structure FormSchema where
  id : String
  name : String
  createdAt : Int
  fields : List FormField

/-- Result of `ValidationEngine.validateField`. -/
structure ValidationResult where
  isValid : Bool
  errors : List String
deriving DecidableEq, Repr

/-- Result of `ValidationEngine.validateForm`. -/
structure FormValidationResult where
  isValid : Bool
  fieldErrors : Assoc (List String)
deriving DecidableEq, Repr

/-- JS `v === null || v === undefined`. -/
def isNullish : Value → Bool
  | Value.null => true
  | Value.undefined => true
  | _ => false

/-- JS `typeof v === 'object'` (true for arrays, plain objects, dates
and `null`). -/
def jsTypeofObject : Value → Bool
  | Value.null => true
  | Value.arr _ => true
  | Value.obj _ => true
  | Value.date _ => true
  | _ => false

/-- JS `Object.keys`: enumerable own property names.  Arrays enumerate
their index strings, `Date` objects have none, primitives have none. -/
def jsKeys : Value → List String
  | Value.obj props => props.map Prod.fst
  | Value.arr elems => (List.range elems.length).map toString
  | _ => []

/-- JS `String(v)` coercion, as far as the engine needs it (the `Date`
case stands for the implementation-defined date string). -/
def jsString : Value → String
  | Value.null => "null"
  | Value.undefined => "undefined"
  | Value.bool b => if b then "true" else "false"
  | Value.num n => toString n
  | Value.str s => s
  | Value.arr elems => String.intercalate "," (elems.attach.map (fun x => jsString x.1))
  | Value.obj _ => "[object Object]"
  | Value.date t => "DateString" ++ toString t
termination_by v => sizeOf v
decreasing_by
  simp_wf
  have := List.sizeOf_lt_of_mem x.2
  omega

/-- JS `String.prototype.trim`: strip whitespace from both ends
(spelled over the character list so that it evaluates by reduction). -/
def jsTrim (s : String) : String :=
  String.mk (((s.data.dropWhile Char.isWhitespace).reverse.dropWhile
    Char.isWhitespace).reverse)

/-- `ValidationEngine.validateNotEmpty`, branch for branch from the
source: null/undefined, all-whitespace string, empty array, then any
`typeof === 'object'` value with an empty `Object.keys` set. -/
def validateNotEmpty (value : Value) (message : String) : Option String :=
  if isNullish value then some message
  else if (match value with | Value.str s => jsTrim s == "" | _ => false) then some message
  else if (match value with | Value.arr elems => elems.length == 0 | _ => false) then
    some message
  else if jsTypeofObject value && (jsKeys value).length == 0 then some message
  else none

/-- `ValidationEngine.validateMinLength`; a missing bound makes the JS
`<` comparison against `undefined` false, so the rule passes. -/
def validateMinLength (value : Value) (minLength : Option Int) (message : String) :
    Option String :=
  if isNullish value then none
  else match minLength with
    | none => none
    | some m => if (Int.ofNat (jsString value).length) < m then some message else none

/-- `ValidationEngine.validateMaxLength`. -/
def validateMaxLength (value : Value) (maxLength : Option Int) (message : String) :
    Option String :=
  if isNullish value then none
  else match maxLength with
    | none => none
    | some m => if m < (Int.ofNat (jsString value).length) then some message else none

/-- Decision procedure for the email regex
`[^\s@]+@[^\s@]+\.[^\s@]+` anchored at both ends: one `@` splitting the
string into a nonempty local part and a domain part that contains an
interior dot, with no whitespace or further `@` anywhere. -/
def emailShaped (s : String) : Bool :=
  match s.splitOn "@" with
  | [localPart, domainPart] =>
    localPart != "" && domainPart != "" &&
    (s.data.all (fun c => ! c.isWhitespace)) &&
    ((domainPart.data.drop 1).dropLast.contains '.')
  | _ => false

/-- JS `value === ''` restricted to the cases `validateEmail` and
`validateCustomPassword` test (empty string). -/
def isEmptyStr : Value → Bool
  | Value.str s => s == ""
  | _ => false

/-- `ValidationEngine.validateEmail`. -/
def validateEmail (value : Value) (message : String) : Option String :=
  if isNullish value || isEmptyStr value then none
  else if emailShaped (jsString value) then none else some message

/-- The punctuation/symbol class of the strong-password rule
(quotes, backslash and braces spelled via their code points). -/
def specialChars : List Char :=
  ['!', '@', '#', '$', '%', Char.ofNat 94, '&', '*', '(', ')', '_', '+', '-', '=',
   '[', ']', Char.ofNat 123, Char.ofNat 125, ';', Char.ofNat 39, ':', Char.ofNat 34,
   Char.ofNat 92, '|', ',', '.', '<', '>', '/', '?']

/-- `ValidationEngine.validateCustomPassword`. -/
def validateCustomPassword (value : Value) (message : String) : Option String :=
  if isNullish value || isEmptyStr value then none
  else
    let s := jsString value
    if s.length < 8 then some message
    else if ! s.data.any (fun c => c.isUpper) then some message
    else if ! s.data.any (fun c => c.isLower) then some message
    else if ! s.data.any (fun c => c.isDigit) then some message
    else if ! s.data.any (fun c => specialChars.contains c) then some message
    else none

/-- `ValidationEngine.validateSingleRule` dispatch. -/
def validateSingleRule (value : Value) (rule : ValidationRule) : Option String :=
  match rule.type with
  | RuleType.notEmpty => validateNotEmpty value rule.message
  | RuleType.minLength => validateMinLength value rule.value rule.message
  | RuleType.maxLength => validateMaxLength value rule.value rule.message
  | RuleType.email => validateEmail value rule.message
  | RuleType.customPassword => validateCustomPassword value rule.message

/-- `ValidationEngine.validateField`: run every rule in order, collect
all failing messages. -/
def validateField (value : Value) (rules : List ValidationRule) : ValidationResult :=
  let errors := rules.filterMap (fun rule => validateSingleRule value rule)
  { isValid := errors.length == 0, errors := errors }

/-- Rule-list membership test used by `validateForm` to decide whether a
`notEmpty` rule is already declared. -/
def hasNotEmptyRule (rules : List ValidationRule) : Bool :=
  rules.any (fun rule => match rule.type with | RuleType.notEmpty => true | _ => false)

/-- The rule synthesized by `validateForm` for a required field. -/
def requiredRuleFor (f : FormField) : ValidationRule :=
  { type := RuleType.notEmpty, message := f.label ++ " is required" }

/-- The effective rule list `validateForm` evaluates for one field:
declared rules with the synthesized `notEmpty` rule unshifted at the
front when the field is required and no `notEmpty` rule is declared. -/
def effectiveRules (f : FormField) : List ValidationRule :=
  let rules := f.validation.getD []
  if f.required && ! hasNotEmptyRule rules then requiredRuleFor f :: rules
  else rules

/-- Model of the in-place `rules.unshift(requiredRule)`: when
`field.validation` is a present array (the `||` fallback not taken),
`rules` aliases it and the unshift mutates the schema's own array. -/
def fieldAfterValidateForm (f : FormField) : FormField :=
  match f.validation with
  | some rules =>
    if f.required && ! hasNotEmptyRule rules then
      { f with validation := some (requiredRuleFor f :: rules) }
    else f
  | none => f

/-- One iteration of the `validateForm` field loop over the accumulator
(fieldErrors so far, isValid so far). -/
def validateFormStep (values : Rmap) (acc : Assoc (List String) × Bool)
    (f : FormField) : Assoc (List String) × Bool :=
  let fieldValue := getJS values f.id
  let result := validateField fieldValue (effectiveRules f)
  if result.isValid then acc
  else (setA acc.1 f.id result.errors, false)

/-- `ValidationEngine.validateForm`.  The first component is the
returned result; the second is the schema as left behind by the call,
reflecting the `unshift` mutation of each field's validation array. -/
def validateForm (values : Rmap) (schema : FormSchema) :
    FormValidationResult × FormSchema :=
  let final := schema.fields.foldl (validateFormStep values) ([], true)
  ({ isValid := final.2, fieldErrors := final.1 },
   { schema with fields := schema.fields.map fieldAfterValidateForm })

/- ----------------------------------------------------------------- -/
/- Derived field calculator (DerivedFieldCalculator.ts)              -/
/- ----------------------------------------------------------------- -/

/-- The `DerivedFieldError.type` enumeration. -/
inductive DerivedErrorType where
  | invalid_expression : DerivedErrorType
  | missing_parent : DerivedErrorType
  | evaluation_error : DerivedErrorType
  | circular_dependency : DerivedErrorType
deriving DecidableEq, Repr

/-- `DerivedFieldError` (the `originalError : Error` payload carries no
information the engine inspects and is omitted). -/
structure DerivedFieldError where
  type : DerivedErrorType
  message : String
  fieldId : Option String := none
deriving DecidableEq, Repr

/-- A character the JS regex word-boundary `\b` treats as a word
character: `[A-Za-z0-9_]`. -/
def jsWordChar (c : Char) : Bool :=
  c.isAlpha || c.isDigit || c == '_'

/-- The whole-word entries of the `dangerousPatterns` deny-list
(`/\bword\b/` each). -/
def dangerousWords : List String :=
  ["eval", "Function", "setTimeout", "setInterval", "setImmediate", "require",
   "import", "export", "process", "global", "window", "document", "localStorage",
   "sessionStorage", "fetch", "XMLHttpRequest", "__proto__", "constructor",
   "prototype", "this", "delete", "void", "typeof", "instanceof", "in", "with",
   "try", "catch", "finally", "throw", "for", "while", "do", "switch", "case",
   "break", "continue", "return", "var", "let", "const", "class", "extends",
   "static", "yield", "async", "await", "new"]

/-- Match of a token at the head of `s` with `\b` boundaries on both
sides (`prev` is the character just before this position, if any). -/
def wordMatchAt (prev : Option Char) (s : List Char) (tok : List Char) : Bool :=
  tok.isPrefixOf s &&
  (match prev with | none => true | some c => ! jsWordChar c) &&
  (match s.drop tok.length with | [] => true | c :: _ => ! jsWordChar c)

/-- Scan all positions of a string for a `\btok\b` match. -/
def containsWordAux (tok : List Char) : Option Char → List Char → Bool
  | prev, [] => wordMatchAt prev [] tok
  | prev, c :: rest => wordMatchAt prev (c :: rest) tok || containsWordAux tok (some c) rest

/-- The JS regex test `/\btok\b/.test(s)`. -/
def containsWord (s tok : String) : Bool :=
  containsWordAux tok.data none s.data

/-- A JS string-quote character: apostrophe, double quote or backtick
(spelled via code points). -/
def quoteChar (c : Char) : Bool :=
  c == Char.ofNat 39 || c == Char.ofNat 34 || c == Char.ofNat 96

/-- Skip `\s*` and test the remainder. -/
def afterWs (p : List Char → Bool) : List Char → Bool
  | [] => p []
  | c :: rest => if c.isWhitespace then afterWs p rest else p (c :: rest)

/-- The structural pattern `/\[\s*['"`]/` tested at one position. -/
def bracketQuoteAt : List Char → Bool
  | [] => false
  | c :: rest =>
    c == '[' && afterWs (fun l => match l with | c' :: _ => quoteChar c' | [] => false) rest

/-- A structural pattern `/\.\s*tok/` tested at one position. -/
def dotPatternAt (tok : List Char) : List Char → Bool
  | [] => false
  | c :: rest => c == '.' && afterWs (fun l => tok.isPrefixOf l) rest

/-- Test a positional pattern at every suffix of the string. -/
def anyPosition (p : List Char → Bool) : List Char → Bool
  | [] => p []
  | c :: rest => p (c :: rest) || anyPosition p rest

/-- The full `dangerousPatterns` screen of `validateExpression`. -/
def hasDangerousPattern (e : String) : Bool :=
  dangerousWords.any (fun w => containsWord e w)
  || anyPosition bracketQuoteAt e.data
  || anyPosition (dotPatternAt "constructor".data) e.data
  || anyPosition (dotPatternAt "__proto__".data) e.data
  || anyPosition (dotPatternAt "prototype".data) e.data

/-- The balanced-parentheses loop of `validateExpression`: running count,
fail as soon as it dips below zero, fail if nonzero at the end. -/
def parensOk : List Char → Int → Bool
  | [], n => n == 0
  | c :: rest, n =>
    let n' := if c == '(' then n + 1 else if c == ')' then n - 1 else n
    if n' < 0 then false else parensOk rest n'

/-- `DerivedFieldCalculator.validateExpression`: throw (modelled as
`Except.error`) on a deny-list match, then on length over 500, then on
unbalanced parentheses. -/
def validateExpression (expression : String) : Except String Unit :=
  if hasDangerousPattern expression then
    Except.error "Expression contains forbidden pattern"
  else if expression.length > 500 then
    Except.error "Expression is too long (maximum 500 characters)"
  else if ! parensOk expression.data 0 then
    Except.error "Unbalanced parentheses in expression"
  else Except.ok ()

/-- Abstraction of the dynamic `new Function(...)` evaluation step: given
the expression text and the evaluation context, it returns a value or
throws.  Every theorem quantifies over the oracle or fixes a concrete
one; the deny-list, length and parenthesis screens run before it. -/
def Oracle : Type :=
  String → Rmap → Except String Value

/-- `DerivedFieldCalculator.createSafeContext`: the parent-field portion
of the evaluation context (the fixed `Math`/`String`/`Number` helper
namespaces contain functions, which only the oracle can observe). -/
def createSafeContext (parentFields : List String) (formValues : Rmap) : Rmap :=
  parentFields.foldl (fun context fieldId => setA context fieldId (getJS formValues fieldId)) []

/-- JS `typeof item === 'object' && item !== null` (arrays, plain
objects and dates). -/
def isObjectLikeItem : Value → Bool
  | Value.arr _ => true
  | Value.obj _ => true
  | Value.date _ => true
  | _ => false

/-- `DerivedFieldCalculator.validateResult`: primitives, null/undefined
and dates pass, arrays pass when every element is primitive, everything
else throws. -/
def validateResult : Value → Except String Value
  | Value.arr elems =>
    if elems.any isObjectLikeItem then
      Except.error "Complex objects not allowed in derived field results"
    else Except.ok (Value.arr elems)
  | Value.obj _ => Except.error "Complex objects not allowed in derived field results"
  | v => Except.ok v

/-- `DerivedFieldCalculator.safeEvaluate`: the `validateExpression`
throw propagates unwrapped; failures of the evaluation itself or of the
result check are re-thrown with the `Expression evaluation error:`
prefix. -/
def safeEvaluate (oracle : Oracle) (expression : String) (context : Rmap) :
    Except String Value :=
  match validateExpression expression with
  | Except.error msg => Except.error msg
  | Except.ok _ =>
    match (match oracle expression context with
           | Except.error msg => Except.error msg
           | Except.ok result => validateResult result) with
    | Except.error msg => Except.error ("Expression evaluation error: " ++ msg)
    | Except.ok value => Except.ok value

/-- Result record of `DerivedFieldCalculator.computeValue`. -/
structure ComputeResult where
  value : Value
  error : Option DerivedFieldError := none

/-- `DerivedFieldCalculator.computeValue`: missing-parent screen (key
presence via the JS `in` operator), empty-logic screen, then sandboxed
evaluation; every throw of the body is caught and converted to an
`evaluation_error`. -/
def computeValue (oracle : Oracle) (config : DerivedFieldConfig) (formValues : Rmap) :
    ComputeResult :=
  let missingParents := config.parentFields.filter (fun parentId => ! hasKeyA formValues parentId)
  if missingParents.length > 0 then
    { value := Value.null,
      error := some { type := DerivedErrorType.missing_parent,
                      message := "Missing parent field values: " ++
                        String.intercalate ", " missingParents } }
  else if config.computationLogic == "" then
    { value := Value.null,
      error := some { type := DerivedErrorType.invalid_expression,
                      message := "Computation logic must be a non-empty string" } }
  else
    match safeEvaluate oracle config.computationLogic
        (createSafeContext config.parentFields formValues) with
    | Except.ok result => { value := result }
    | Except.error msg =>
      { value := Value.null,
        error := some { type := DerivedErrorType.evaluation_error, message := msg } }

/-- `derivedFields.find(f => f.id === fieldId)`. -/
def findField (fields : List FormField) (fid : String) : Option FormField :=
  fields.find? (fun g => g.id == fid)

/-- The `schema.fields.filter(field => field.derivedFrom)` collection. -/
def derivedFieldsOf (schema : FormSchema) : List FormField :=
  schema.fields.filter (fun f => f.derivedFrom.isSome)

/-- Shared mutable state of `detectCircularDependencies`: the `visited`
and `recursionStack` sets. -/
structure DetState where
  visited : List String
  recursionStack : List String

mutual

/-- The recursive `hasCycle` closure of `detectCircularDependencies`,
with the recursion depth bounded by explicit fuel (the caller passes
more fuel than there are distinct field ids, so the bound is never
reached). -/
def hasCycle (fields : List FormField) : Nat → String → DetState → Bool × DetState
  | 0, _, st => (false, st)
  | fuel + 1, fieldId, st =>
    if fieldId ∈ st.recursionStack then (true, st)
    else if fieldId ∈ st.visited then (false, st)
    else
      let st1 : DetState := ⟨fieldId :: st.visited, fieldId :: st.recursionStack⟩
      match findField fields fieldId with
      | some f =>
        match f.derivedFrom with
        | some cfg =>
          let r := cycleParents fields fuel cfg.parentFields st1
          if r.1 then (true, r.2)
          else (false, ⟨r.2.visited, r.2.recursionStack.erase fieldId⟩)
        | none => (false, ⟨st1.visited, st1.recursionStack.erase fieldId⟩)
      | none => (false, ⟨st1.visited, st1.recursionStack.erase fieldId⟩)
termination_by fuel _ _ => (fuel, 0)

/-- The `for (const parentId of field.derivedFrom.parentFields)` loop of
`hasCycle`: recurse only into parents that exist and are themselves
derived, returning `true` as soon as a cycle is found. -/
def cycleParents (fields : List FormField) : Nat → List String → DetState → Bool × DetState
  | _, [], st => (false, st)
  | fuel, parentId :: rest, st =>
    match findField fields parentId with
    | some pf =>
      if pf.derivedFrom.isSome then
        let r := hasCycle fields fuel parentId st
        if r.1 then (true, r.2)
        else cycleParents fields fuel rest r.2
      else cycleParents fields fuel rest st
    | none => cycleParents fields fuel rest st
termination_by fuel ps _ => (fuel, ps.length + 1)

end

/-- The constant error object `detectCircularDependencies` returns. -/
def circularDependencyError : DerivedFieldError :=
  { type := DerivedErrorType.circular_dependency,
    message := "Circular dependency detected in derived fields" }

/-- The outer `for (const field of derivedFields)` loop of
`detectCircularDependencies`, threading the shared marker sets. -/
def detectLoop (fields : List FormField) : List FormField → DetState → Option DerivedFieldError
  | [], _ => none
  | f :: rest, st =>
    if f.id ∈ st.visited then detectLoop fields rest st
    else
      let r := hasCycle fields (fields.length + 1) f.id st
      if r.1 then some circularDependencyError
      else detectLoop fields rest r.2

/-- `DerivedFieldCalculator.detectCircularDependencies`. -/
def detectCircularDependencies (derivedFields : List FormField) : Option DerivedFieldError :=
  detectLoop derivedFields derivedFields ⟨[], []⟩

/-- State of `sortFieldsByDependencies`: output list, `visited` set and
`temp` (on the current visit path) set. -/
structure SortState where
  sorted : List FormField
  visited : List String
  temp : List String

mutual

/-- The recursive `visit` closure of `sortFieldsByDependencies`
(post-order append), fuel-bounded like `hasCycle`. -/
def visitField (fields : List FormField) : Nat → FormField → SortState → SortState
  | 0, _, st => st
  | fuel + 1, f, st =>
    if f.id ∈ st.temp then st
    else if f.id ∈ st.visited then st
    else
      let st1 : SortState := { st with temp := f.id :: st.temp }
      let st2 := match f.derivedFrom with
        | some cfg => visitParents fields fuel cfg.parentFields st1
        | none => st1
      { sorted := st2.sorted ++ [f], visited := f.id :: st2.visited,
        temp := st2.temp.erase f.id }
termination_by fuel _ _ => (fuel, 0)

/-- The parent loop of `visit`: recurse into parents that exist in the
derived-field list and are themselves derived. -/
def visitParents (fields : List FormField) : Nat → List String → SortState → SortState
  | _, [], st => st
  | fuel, parentId :: rest, st =>
    let st' := match findField fields parentId with
      | some pf => if pf.derivedFrom.isSome then visitField fields fuel pf st else st
      | none => st
    visitParents fields fuel rest st'
termination_by fuel ps _ => (fuel, ps.length + 1)

end

/-- The outer loop of `sortFieldsByDependencies`. -/
def sortLoop (fields : List FormField) : List FormField → SortState → SortState
  | [], st => st
  | f :: rest, st =>
    if f.id ∈ st.visited then sortLoop fields rest st
    else sortLoop fields rest (visitField fields (fields.length + 1) f st)

/-- `DerivedFieldCalculator.sortFieldsByDependencies`. -/
def sortFieldsByDependencies (derivedFields : List FormField) : List FormField :=
  (sortLoop derivedFields derivedFields ⟨[], [], []⟩).sorted

/-- Result record of `updateDerivedFields`. -/
structure UpdateResult where
  values : Rmap
  errors : Assoc DerivedFieldError

/-- Loop body of the compute pass of `updateDerivedFields`: on error,
record it under the field id (with `fieldId` spread in); on success,
overwrite the working value map. -/
def processField (oracle : Oracle) (st : Rmap × Assoc DerivedFieldError) (f : FormField) :
    Rmap × Assoc DerivedFieldError :=
  match f.derivedFrom with
  | none => st
  | some cfg =>
    let result := computeValue oracle cfg st.1
    match result.error with
    | some err => (st.1, setA st.2 f.id { err with fieldId := some f.id })
    | none => (setA st.1 f.id result.value, st.2)

/-- The compute pass over the dependency-sorted derived fields. -/
def runDerivedPass (oracle : Oracle) (fields : List FormField)
    (start : Rmap × Assoc DerivedFieldError) : Rmap × Assoc DerivedFieldError :=
  fields.foldl (processField oracle) start

/-- `DerivedFieldCalculator.updateDerivedFields`. -/
def updateDerivedFields (oracle : Oracle) (formValues : Rmap) (schema : FormSchema) :
    UpdateResult :=
  let derivedFields := derivedFieldsOf schema
  match detectCircularDependencies derivedFields with
  | some circularError =>
    { values := formValues,
      errors := derivedFields.foldl (fun errors f => setA errors f.id circularError) [] }
  | none =>
    let sortedDerivedFields := sortFieldsByDependencies derivedFields
    let final := runDerivedPass oracle sortedDerivedFields (formValues, [])
    { values := final.1, errors := final.2 }

/-- A trivial concrete oracle (evaluation always yields JS `null`). -/
def nullOracle : Oracle := fun _ _ => Except.ok Value.null

/-- A second concrete oracle (evaluation always yields the number 1),
used to exhibit oracle-independence at concrete inputs. -/
def oneOracle : Oracle := fun _ _ => Except.ok (Value.num 1)

/-- The derived-field dependency relation of a field list: `a` depends on
`b` when some field with id `a` lists `b` among its `parentFields` and
some field with id `b` is present (applied to `derivedFieldsOf schema`,
both endpoints are derived fields; self-reference gives `dfEdge a a`). -/
def dfEdge (fields : List FormField) (a b : String) : Prop :=
  ∃ fa, fa ∈ fields ∧ fa.id = a ∧
    ∃ cfg, fa.derivedFrom = some cfg ∧ b ∈ cfg.parentFields ∧
      ∃ fb, fb ∈ fields ∧ fb.id = b

/-- Acyclicity of the derived-field dependency relation. -/
def AcyclicDeps (fields : List FormField) : Prop :=
  ∀ a, ¬ Relation.TransGen (dfEdge fields) a a

/-- Index of the first occurrence of a string in a list (list length when
absent). -/
def idxS (l : List String) (a : String) : Nat :=
  l.findIdx (fun x => x == a)

/-- Number of distinct elements of `l` not in `excl`; the measure that
bounds the DFS recursion depth and justifies the fuel values. -/
def cntNotIn (l excl : List String) : Nat :=
  (l.dedup.filter (fun x => decide (x ∉ excl))).length

/-- Topological-order property of an id list for an edge relation: at
every decomposition the middle element's edge targets lie strictly
earlier in the list. -/
def TopoIds (edge : String → String → Prop) (l : List String) : Prop :=
  ∀ pre x post, l = pre ++ x :: post → ∀ b, edge x b → b ∈ pre

/-- DFS invariant of `detectCircularDependencies`: `L` lists the black
(finished) ids in finishing order, is duplicate-free and topologically
ordered, and the grey recursion stack is contained in `visited`. -/
def GoodD (fields : List FormField) (st : DetState) (L : List String) : Prop :=
  (∀ x, x ∈ L ↔ (x ∈ st.visited ∧ x ∉ st.recursionStack)) ∧
  L.Nodup ∧ TopoIds (dfEdge fields) L ∧
  (∀ x ∈ st.recursionStack, x ∈ st.visited)

/-- DFS invariant of `sortFieldsByDependencies`: `visited` is exactly the
id set of the output list, which is duplicate-free and topologically
ordered. -/
def GoodS (fields : List FormField) (st : SortState) : Prop :=
  (∀ x, x ∈ st.visited ↔ x ∈ st.sorted.map FormField.id) ∧
  (st.sorted.map FormField.id).Nodup ∧
  TopoIds (dfEdge fields) (st.sorted.map FormField.id)

/-- Position of the field with the given id in a field list. -/
def posIn (l : List FormField) (a : String) : Nat :=
  idxS (l.map FormField.id) a

/-- Sample schema data for the concrete witnesses: a single required text
field with no declared rules (`validation` undefined). -/
def sampleRequiredField : FormField :=
  { id := "name", fieldType := "text", label := "Name", required := true }

/-- Schema holding just `sampleRequiredField`. -/
def sampleRequiredSchema : FormSchema :=
  { id := "s1", name := "Sample", createdAt := 0, fields := [sampleRequiredField] }

/-- A required field whose `validation` is a present (empty) array — the
input on which `validateForm` mutates the schema. -/
def aliasedField : FormField :=
  { id := "name", fieldType := "text", label := "Name", required := true,
    validation := some [] }

/-- Schema holding just `aliasedField`. -/
def aliasedSchema : FormSchema :=
  { id := "s2", name := "Aliased", createdAt := 0, fields := [aliasedField] }

/-- A required date field with no declared rules. -/
def dateField : FormField :=
  { id := "d", fieldType := "date", label := "Birth date", required := true }

/-- Schema holding just `dateField`. -/
def dateSchema : FormSchema :=
  { id := "s3", name := "Dates", createdAt := 0, fields := [dateField] }

/-- A derived-field configuration with an unbalanced-parenthesis
expression and no parents. -/
def unbalancedConfig : DerivedFieldConfig :=
  { parentFields := [], computationLogic := ")" }

/-- Two mutually dependent derived fields (the cycle witness). -/
def cycleFieldX : FormField :=
  { id := "x", fieldType := "number", label := "X", required := false,
    derivedFrom := some { parentFields := ["y"], computationLogic := "y + 1" } }

/-- Second field of the cycle witness. -/
def cycleFieldY : FormField :=
  { id := "y", fieldType := "number", label := "Y", required := false,
    derivedFrom := some { parentFields := ["x"], computationLogic := "x + 1" } }

/-- Schema with the two-field dependency cycle. -/
def cycleSchema : FormSchema :=
  { id := "s4", name := "Cycle", createdAt := 0, fields := [cycleFieldX, cycleFieldY] }

/-- A plain field feeding the derived chain of the acyclic witnesses. -/
def plainFieldA : FormField :=
  { id := "a", fieldType := "number", label := "A", required := false }

/-- Derived field depending on the plain field `a`. -/
def derivedFieldB : FormField :=
  { id := "b", fieldType := "number", label := "B", required := false,
    derivedFrom := some { parentFields := ["a"], computationLogic := "a * 2" } }

/-- Derived field depending on the derived field `b`. -/
def derivedFieldC : FormField :=
  { id := "c", fieldType := "number", label := "C", required := false,
    derivedFrom := some { parentFields := ["b"], computationLogic := "b + 1" } }

/-- Acyclic schema: plain `a`, derived `b` (parent `a`), derived `c`
(parent `b`), declared in the order `c, b, a`. -/
def chainSchema : FormSchema :=
  { id := "s5", name := "Chain", createdAt := 0,
    fields := [derivedFieldC, derivedFieldB, plainFieldA] }

/-- A derived field whose parent id matches no field and no value. -/
def orphanField : FormField :=
  { id := "o", fieldType := "number", label := "O", required := false,
    derivedFrom := some { parentFields := ["nonexistent"], computationLogic := "nonexistent" } }

/-- Schema holding just `orphanField`. -/
def orphanSchema : FormSchema :=
  { id := "s6", name := "Orphan", createdAt := 0, fields := [orphanField] }

/- ----------------------------------------------------------------- -/
/- Basic lemmas about the association-list operations                -/
/- ----------------------------------------------------------------- -/

@[simp]
theorem lookupA_setA_self {α : Type} (m : Assoc α) (k : String) (v : α) :
    lookupA (setA m k v) k = some v := by
  induction m with
  | nil => simp [setA, lookupA]
  | cons e rest ih =>
    by_cases h : e.1 = k <;> simp [setA, lookupA, h, ih]

theorem lookupA_setA_ne {α : Type} (m : Assoc α) (k k' : String) (v : α)
    (h : k ≠ k') : lookupA (setA m k v) k' = lookupA m k' := by
  induction m with
  | nil => simp [setA, lookupA]; simp [h]
  | cons e rest ih =>
    by_cases he : e.1 = k
    · simp [setA, lookupA, he, h]
    · simp only [setA, beq_iff_eq, if_neg he, lookupA]
      by_cases he' : e.1 = k' <;> simp [he', ih]

example : validateNotEmpty (Value.num 0) "m" = none := rfl
example : validateNotEmpty (Value.bool false) "m" = none := rfl
example : validateNotEmpty (Value.str "  ") "m" = some "m" := rfl
example : validateNotEmpty (Value.date 3) "m" = some "m" := rfl
example : hasDangerousPattern "process.exit()" = true := rfl
example : hasDangerousPattern "this.constructor" = true := rfl
example : hasDangerousPattern "a + b * 2" = false := rfl
example : validateExpression ")" = Except.error "Unbalanced parentheses in expression" := rfl

/- ----------------------------------------------------------------- -/
/- Claims C5 to C10                                                  -/
/- ----------------------------------------------------------------- -/

/-- C8: the notEmpty rule fails (returns the rule's message) exactly when
the value is null or undefined, a string that trims to empty, an empty
array, or a `typeof 'object'` value with an empty key set; every other
value passes, in particular the number 0 and the boolean false. -/
theorem C8_notEmpty_characterization :
    (∀ (v : Value) (msg : String),
      validateNotEmpty v msg = some msg ↔
        (v = Value.null ∨ v = Value.undefined ∨
         (∃ s, v = Value.str s ∧ jsTrim s = "") ∨
         v = Value.arr [] ∨
         (jsTypeofObject v = true ∧ jsKeys v = []))) ∧
    (∀ msg, validateNotEmpty (Value.num 0) msg = none) ∧
    (∀ msg, validateNotEmpty (Value.bool false) msg = none) := by
  refine ⟨?_, fun msg => rfl, fun msg => rfl⟩
  intro v msg
  cases v with
  | null => simp [validateNotEmpty, isNullish]
  | undefined => simp [validateNotEmpty, isNullish, jsTypeofObject]
  | bool b => simp [validateNotEmpty, isNullish, jsTypeofObject]
  | num n => simp [validateNotEmpty, isNullish, jsTypeofObject]
  | str s =>
    by_cases h : jsTrim s = "" <;>
      simp [validateNotEmpty, isNullish, jsTypeofObject, h]
  | arr elems =>
    by_cases h : elems = [] <;>
      simp [validateNotEmpty, isNullish, jsTypeofObject, jsKeys, h,
        List.length_eq_zero]
  | obj props =>
    by_cases h : props = [] <;>
      simp [validateNotEmpty, isNullish, jsTypeofObject, jsKeys, h,
        List.map_eq_nil_iff]
  | date t => simp [validateNotEmpty, isNullish, jsTypeofObject, jsKeys]

/-- C10: a value with an empty enumerable-key set that is not an array is
classified as empty by the notEmpty rule regardless of its meaning; in
particular a `Date` value — which `validateResult` deliberately passes
through derived-field computation — fails a required check, as the
concrete `dateSchema` validation shows. -/
theorem C10_keyless_object_counts_as_empty (t : Int) (msg : String) :
    validateNotEmpty (Value.obj []) msg = some msg ∧
    validateNotEmpty (Value.date t) msg = some msg ∧
    validateResult (Value.date t) = Except.ok (Value.date t) ∧
    (validateForm [("d", Value.date t)] dateSchema).1.isValid = false ∧
    lookupA (validateForm [("d", Value.date t)] dateSchema).1.fieldErrors "d" =
      some ["Birth date is required"] :=
  ⟨rfl, rfl, rfl, rfl, rfl⟩

/-- C7: for a required field with no declared notEmpty rule,
`validateForm` evaluates the declared rules with a synthesized notEmpty
rule (message `label is required`) unshifted at the front; on a schema
with a single required field and no declared rules, the empty values map
yields `isValid = false` and that single message for the field. -/
theorem C7_required_rule_injection :
    (∀ f : FormField, f.required = true →
      hasNotEmptyRule (f.validation.getD []) = false →
      effectiveRules f = requiredRuleFor f :: f.validation.getD []) ∧
    (∀ (f : FormField) (schema : FormSchema), schema.fields = [f] →
      f.required = true → f.validation = none →
      (validateForm [] schema).1.isValid = false ∧
      lookupA (validateForm [] schema).1.fieldErrors f.id =
        some [f.label ++ " is required"]) := by
  constructor
  · intro f hreq hno
    simp [effectiveRules, hreq, hno]
  · intro f schema hfields hreq hval
    have heff : effectiveRules f = [requiredRuleFor f] := by
      simp [effectiveRules, hreq, hval, hasNotEmptyRule]
    have hstep : validateFormStep [] ([], true) f =
        (setA [] f.id [f.label ++ " is required"], false) := by
      simp [validateFormStep, heff, getJS, lookupA, validateField,
        validateSingleRule, requiredRuleFor, validateNotEmpty, isNullish]
    constructor
    · simp [validateForm, hfields, hstep]
    · simp [validateForm, hfields, hstep]

/-- C7 witness: the general theorem applied to the concrete
`sampleRequiredSchema`. -/
theorem C7_witness :
    effectiveRules sampleRequiredField =
      requiredRuleFor sampleRequiredField :: [] ∧
    (validateForm [] sampleRequiredSchema).1.isValid = false ∧
    lookupA (validateForm [] sampleRequiredSchema).1.fieldErrors "name" =
      some ["Name is required"] := by
  have h2 := C7_required_rule_injection.2 sampleRequiredField sampleRequiredSchema
    rfl rfl rfl
  exact ⟨C7_required_rule_injection.1 sampleRequiredField rfl rfl, h2.1, h2.2⟩

/-- C9 (code bug evidence): `validateForm` aliases a present
`field.validation` array and `unshift`s the synthesized rule into it, so
the schema left behind differs from the input schema: on
`aliasedSchema` (one required field with a declared empty rule list) the
field's validation list has gained the synthesized rule. -/
theorem C9_validateForm_mutates_schema :
    (validateForm [] aliasedSchema).2.fields.map FormField.validation =
      [some [requiredRuleFor aliasedField]] ∧
    aliasedSchema.fields.map FormField.validation = [some []] ∧
    some [requiredRuleFor aliasedField] ≠ (some [] : Option (List ValidationRule)) :=
  ⟨rfl, rfl, by decide⟩

/-- C6: an expression matching the deny-list is rejected before the
dynamic evaluation step ever runs — the result of `computeValue` is the
same for every oracle — and the failure is returned as a structured
error object with a nonempty message rather than an exception
(`computeValue` is total by construction). -/
theorem C6_forbidden_rejected_before_evaluation (oracle oracle' : Oracle)
    (config : DerivedFieldConfig) (vals : Rmap)
    (h : hasDangerousPattern config.computationLogic = true) :
    computeValue oracle config vals = computeValue oracle' config vals ∧
    ∃ e, (computeValue oracle config vals).error = some e ∧ e.message ≠ "" := by
  by_cases hm : 0 < (config.parentFields.filter (fun p => ! hasKeyA vals p)).length
  · refine ⟨by simp [computeValue, hm], ?_⟩
    refine ⟨{ type := DerivedErrorType.missing_parent,
              message := "Missing parent field values: " ++ String.intercalate ", "
                (config.parentFields.filter (fun p => ! hasKeyA vals p)) },
      by simp [computeValue, hm], ?_⟩
    intro contra
    have hlen := congrArg String.length contra
    simp [String.length_append] at hlen
    exact absurd hlen.1 (by decide)
  · have hne : (config.computationLogic == "") = false := by
      rcases Bool.eq_false_or_eq_true (config.computationLogic == "") with h0 | h0
      · exfalso
        have hempty : config.computationLogic = "" := by simpa using h0
        rw [hempty] at h
        exact absurd h (by decide)
      · exact h0
    have hsafe : ∀ ctx, safeEvaluate oracle config.computationLogic ctx =
        Except.error "Expression contains forbidden pattern" := by
      intro ctx
      simp [safeEvaluate, validateExpression, h]
    have hsafe' : ∀ ctx, safeEvaluate oracle' config.computationLogic ctx =
        Except.error "Expression contains forbidden pattern" := by
      intro ctx
      simp [safeEvaluate, validateExpression, h]
    refine ⟨by simp [computeValue, hm, hne, hsafe, hsafe'], ?_⟩
    refine ⟨{ type := DerivedErrorType.evaluation_error,
              message := "Expression contains forbidden pattern" },
      by simp [computeValue, hm, hne, hsafe], by decide⟩

/-- C6 witness: the spec's own example `process.exit()` is rejected
identically under two different oracles, with a structured error. -/
theorem C6_witness :
    hasDangerousPattern "process.exit()" = true ∧
    computeValue nullOracle ⟨[], "process.exit()"⟩ [] =
      computeValue oneOracle ⟨[], "process.exit()"⟩ [] ∧
    ∃ e, (computeValue nullOracle ⟨[], "process.exit()"⟩ []).error = some e ∧
      e.message ≠ "" := by
  have h := C6_forbidden_rejected_before_evaluation nullOracle oneOracle
    ⟨[], "process.exit()"⟩ [] rfl
  exact ⟨rfl, h.1, h.2⟩

/-- C5 counterexample: an unbalanced-parenthesis expression is NOT
reported as `invalid_expression` — the `validateExpression` throw is
caught by the catch-all of `computeValue` and classified as
`evaluation_error`, refuting the claimed classification at the concrete
expression `)`. -/
theorem C5_counterexample :
    (computeValue nullOracle unbalancedConfig []).error =
      some { type := DerivedErrorType.evaluation_error,
             message := "Unbalanced parentheses in expression" } ∧
    DerivedErrorType.evaluation_error ≠ DerivedErrorType.invalid_expression :=
  ⟨rfl, by decide⟩

/-- C5 as amended: with all parents present, an empty expression is
classified `invalid_expression`, while an oversized or
unbalanced-parenthesis expression fails with classification
`evaluation_error` (the `validateExpression` throw is converted by the
catch-all of `computeValue`). -/
theorem C5_invalid_expression_classification (oracle : Oracle)
    (config : DerivedFieldConfig) (vals : Rmap)
    (hparents : ∀ p ∈ config.parentFields, hasKeyA vals p = true) :
    (config.computationLogic = "" →
      (computeValue oracle config vals).error =
        some { type := DerivedErrorType.invalid_expression,
               message := "Computation logic must be a non-empty string" }) ∧
    (config.computationLogic ≠ "" →
      (500 < config.computationLogic.length ∨
        parensOk config.computationLogic.data 0 = false) →
      ∃ e, (computeValue oracle config vals).error = some e ∧
        e.type = DerivedErrorType.evaluation_error) := by
  have hfilter : config.parentFields.filter (fun p => ! hasKeyA vals p) = [] := by
    rw [List.filter_eq_nil_iff]
    intro p hp
    simp [hparents p hp]
  constructor
  · intro h0
    simp [computeValue, hfilter, h0]
  · intro hne hbad
    have hne' : (config.computationLogic == "") = false := by
      simp [hne]
    by_cases hd : hasDangerousPattern config.computationLogic = true
    · refine ⟨{ type := DerivedErrorType.evaluation_error,
                message := "Expression contains forbidden pattern" },
        by simp [computeValue, hfilter, hne', safeEvaluate,
          validateExpression, hd], rfl⟩
    · have hd' : hasDangerousPattern config.computationLogic = false := by
        simpa using hd
      by_cases hlen : 500 < config.computationLogic.length
      · refine ⟨{ type := DerivedErrorType.evaluation_error,
                  message := "Expression is too long (maximum 500 characters)" },
          by simp [computeValue, hfilter, hne', safeEvaluate,
            validateExpression, hd', hlen], rfl⟩
      · have hpar : parensOk config.computationLogic.data 0 = false := by
          rcases hbad with h | h
          · exact absurd h hlen
          · exact h
        refine ⟨{ type := DerivedErrorType.evaluation_error,
                  message := "Unbalanced parentheses in expression" },
          by simp [computeValue, hfilter, hne', safeEvaluate,
            validateExpression, hd', hlen, hpar], rfl⟩

/- ----------------------------------------------------------------- -/
/- Lemmas about the dependency sort and the compute pass             -/
/- ----------------------------------------------------------------- -/

theorem visit_mem (fields : List FormField) : ∀ fuel : Nat,
    (∀ (f : FormField) (st : SortState), f ∈ fields →
      ∀ g ∈ (visitField fields fuel f st).sorted, g ∈ fields ∨ g ∈ st.sorted) ∧
    (∀ (ps : List String) (st : SortState),
      ∀ g ∈ (visitParents fields fuel ps st).sorted, g ∈ fields ∨ g ∈ st.sorted) := by
  intro fuel
  induction fuel with
  | zero =>
    have hf : ∀ (f : FormField) (st : SortState), visitField fields 0 f st = st := by
      intro f st; simp [visitField]
    refine ⟨fun f st _ g hg => Or.inr (by simpa [hf] using hg), ?_⟩
    intro ps
    induction ps with
    | nil => intro st g hg; exact Or.inr (by simpa [visitParents] using hg)
    | cons p rest ih =>
      intro st g hg
      rw [visitParents] at hg
      rcases hfind : findField fields p with _ | pf
      · simp only [hfind] at hg
        exact ih st g hg
      · simp only [hfind] at hg
        by_cases hds : pf.derivedFrom.isSome = true
        · simp only [if_pos hds, hf] at hg
          exact ih st g hg
        · simp only [if_neg hds] at hg
          exact ih st g hg
  | succ n ih =>
    have hP : ∀ (f : FormField) (st : SortState), f ∈ fields →
        ∀ g ∈ (visitField fields (n + 1) f st).sorted, g ∈ fields ∨ g ∈ st.sorted := by
      intro f st hf g hg
      rw [visitField] at hg
      by_cases h1 : f.id ∈ st.temp
      · exact Or.inr (by simpa [h1] using hg)
      · by_cases h2 : f.id ∈ st.visited
        · exact Or.inr (by simpa [h1, h2] using hg)
        · simp only [if_neg h1, if_neg h2] at hg
          rcases hdf : f.derivedFrom with _ | cfg
          · simp only [hdf] at hg
            simp at hg
            rcases hg with hg | hg
            · exact Or.inr hg
            · exact Or.inl (hg ▸ hf)
          · simp only [hdf] at hg
            simp at hg
            rcases hg with hg | hg
            · rcases ih.2 cfg.parentFields { st with temp := f.id :: st.temp } g hg with
                h | h
              · exact Or.inl h
              · exact Or.inr h
            · exact Or.inl (hg ▸ hf)
    refine ⟨hP, ?_⟩
    intro ps
    induction ps with
    | nil => intro st g hg; exact Or.inr (by simpa [visitParents] using hg)
    | cons p rest ihp =>
      intro st g hg
      rw [visitParents] at hg
      rcases hfind : findField fields p with _ | pf
      · simp only [hfind] at hg
        exact ihp st g hg
      · simp only [hfind] at hg
        by_cases hds : pf.derivedFrom.isSome = true
        · simp only [if_pos hds] at hg
          have hpf : pf ∈ fields := List.mem_of_find?_eq_some hfind
          rcases ihp (visitField fields (n + 1) pf st) g hg with h | h
          · exact Or.inl h
          · rcases hP pf st hpf g h with h' | h'
            · exact Or.inl h'
            · exact Or.inr h'
        · simp only [if_neg hds] at hg
          exact ihp st g hg

theorem sortLoop_mem (fields : List FormField) : ∀ (l : List FormField) (st : SortState),
    (∀ f ∈ l, f ∈ fields) →
    ∀ g ∈ (sortLoop fields l st).sorted, g ∈ fields ∨ g ∈ st.sorted := by
  intro l
  induction l with
  | nil => intro st _ g hg; exact Or.inr (by simpa [sortLoop] using hg)
  | cons f rest ih =>
    intro st hl g hg
    rw [sortLoop] at hg
    by_cases h1 : f.id ∈ st.visited
    · rw [if_pos h1] at hg
      exact ih st (fun x hx => hl x (List.mem_cons_of_mem f hx)) g hg
    · rw [if_neg h1] at hg
      rcases ih _ (fun x hx => hl x (List.mem_cons_of_mem f hx)) g hg with h | h
      · exact Or.inl h
      · rcases (visit_mem fields (fields.length + 1)).1 f st
          (hl f (List.mem_cons_self f rest)) g h with h' | h'
        · exact Or.inl h'
        · exact Or.inr h'

theorem sortFields_mem (fields : List FormField) :
    ∀ g ∈ sortFieldsByDependencies fields, g ∈ fields := by
  intro g hg
  rcases sortLoop_mem fields fields ⟨[], [], []⟩ (fun _ hx => hx) g hg with h | h
  · exact h
  · exact absurd h (List.not_mem_nil g)

theorem processField_spec (oracle : Oracle) (st : Rmap × Assoc DerivedFieldError)
    (f : FormField) :
    (f.derivedFrom = none → processField oracle st f = st) ∧
    (∀ cfg, f.derivedFrom = some cfg →
      ((computeValue oracle cfg st.1).error = none →
        processField oracle st f =
          (setA st.1 f.id (computeValue oracle cfg st.1).value, st.2)) ∧
      (∀ err, (computeValue oracle cfg st.1).error = some err →
        processField oracle st f =
          (st.1, setA st.2 f.id { err with fieldId := some f.id }))) := by
  refine ⟨?_, ?_⟩
  · intro h
    simp [processField, h]
  · intro cfg h
    refine ⟨?_, ?_⟩
    · intro he
      simp [processField, h, he]
    · intro err he
      simp [processField, h, he]

theorem runDerivedPass_frame (oracle : Oracle) :
    ∀ (fields : List FormField) (st : Rmap × Assoc DerivedFieldError) (i : String),
    (∀ g ∈ fields, g.id ≠ i) →
    lookupA (runDerivedPass oracle fields st).1 i = lookupA st.1 i ∧
    lookupA (runDerivedPass oracle fields st).2 i = lookupA st.2 i := by
  intro fields
  induction fields with
  | nil => intro st i _; exact ⟨rfl, rfl⟩
  | cons f rest ih =>
    intro st i h
    have hstep : lookupA (processField oracle st f).1 i = lookupA st.1 i ∧
        lookupA (processField oracle st f).2 i = lookupA st.2 i := by
      have hfi : f.id ≠ i := h f (List.mem_cons_self f rest)
      rcases hdf : f.derivedFrom with _ | cfg
      · rw [(processField_spec oracle st f).1 hdf]
        exact ⟨rfl, rfl⟩
      · rcases herr : (computeValue oracle cfg st.1).error with _ | err
        · rw [((processField_spec oracle st f).2 cfg hdf).1 herr]
          exact ⟨lookupA_setA_ne st.1 f.id i _ hfi, rfl⟩
        · rw [((processField_spec oracle st f).2 cfg hdf).2 err herr]
          exact ⟨rfl, lookupA_setA_ne st.2 f.id i _ hfi⟩
    have hrest := ih (processField oracle st f) i
      (fun g hg => h g (List.mem_cons_of_mem f hg))
    exact ⟨hrest.1.trans hstep.1, hrest.2.trans hstep.2⟩

/-- C4: `updateDerivedFields` returns a fresh map (mutation is modelled
by explicit state passing, so the caller's map is untouched by
construction) in which every entry whose id belongs to no derived field
is exactly the corresponding entry of the input map. -/
theorem C4_nonderived_entries_unchanged (oracle : Oracle) (vals : Rmap)
    (schema : FormSchema) (i : String)
    (h : ∀ f ∈ schema.fields, f.id = i → f.derivedFrom = none) :
    lookupA (updateDerivedFields oracle vals schema).values i = lookupA vals i := by
  unfold updateDerivedFields
  rcases hdet : detectCircularDependencies (derivedFieldsOf schema) with _ | e
  · simp only [hdet]
    apply (runDerivedPass_frame oracle _ _ i ?_).1
    intro g hg
    have hgmem := sortFields_mem _ g hg
    have hgf : g ∈ schema.fields := List.mem_of_mem_filter hgmem
    have hgd : g.derivedFrom.isSome := by
      have := List.of_mem_filter hgmem
      simpa using this
    intro hgi
    rw [h g hgf hgi] at hgd
    simp at hgd
  · simp only [hdet]

/-- C4 witness: in the concrete `chainSchema`, the entry of the plain
field `a` is returned unchanged. -/
theorem C4_witness :
    lookupA (updateDerivedFields nullOracle [("a", Value.num 2)] chainSchema).values "a" =
      lookupA [("a", Value.num 2)] "a" :=
  C4_nonderived_entries_unchanged nullOracle [("a", Value.num 2)] chainSchema "a"
    (by decide)

/-- C5 witness: the amended classification applied to the concrete
unbalanced expression `)`. -/
theorem C5_witness :
    ∃ e, (computeValue nullOracle unbalancedConfig []).error = some e ∧
      e.type = DerivedErrorType.evaluation_error := by
  refine (C5_invalid_expression_classification nullOracle unbalancedConfig []
    ?_).2 (by decide) (Or.inr (by decide))
  intro p hp
  exact absurd hp (List.not_mem_nil p)

/- ----------------------------------------------------------------- -/
/- Generic helpers for the DFS correctness proofs                    -/
/- ----------------------------------------------------------------- -/

theorem idxS_append_left (pre post : List String) (b : String) (hb : b ∈ pre) :
    idxS (pre ++ post) b < pre.length := by
  induction pre with
  | nil => exact absurd hb (List.not_mem_nil b)
  | cons a rest ih =>
    by_cases hab : a = b
    · simp [idxS, List.findIdx_cons, hab]
    · rcases List.mem_cons.mp hb with h | h
      · exact absurd h.symm hab
      · have := ih h
        simp only [idxS, List.cons_append, List.findIdx_cons]
        have hba : (a == b) = false := by simp [hab]
        simp [hba]
        exact this

theorem idxS_append_middle (pre post : List String) (x : String) (hx : x ∉ pre) :
    idxS (pre ++ x :: post) x = pre.length := by
  induction pre with
  | nil => simp [idxS, List.findIdx_cons]
  | cons a rest ih =>
    have hax : ¬ a = x := fun h => hx (h ▸ List.mem_cons_self a rest)
    have hx' : x ∉ rest := fun h => hx (List.mem_cons_of_mem a h)
    have hba : (a == x) = false := by simp [hax]
    simp only [idxS, List.cons_append, List.findIdx_cons, hba, cond_false]
    simp only [Nat.add_right_cancel_iff, List.length_cons]
    exact ih hx'

theorem nodup_middle_not_mem {pre post : List String} {x : String}
    (h : (pre ++ x :: post).Nodup) : x ∉ pre := by
  intro hx
  have hdisj := (List.nodup_append.mp h).2.2
  exact hdisj hx (List.mem_cons_self x post)

theorem topo_step {edge : String → String → Prop} {l : List String}
    (hnd : l.Nodup) (ht : TopoIds edge l) {x b : String}
    (hx : x ∈ l) (hedge : edge x b) : b ∈ l ∧ idxS l b < idxS l x := by
  obtain ⟨pre, post, rfl⟩ := List.append_of_mem hx
  have hb : b ∈ pre := ht pre x post rfl b hedge
  have hxpre : x ∉ pre := nodup_middle_not_mem hnd
  refine ⟨List.mem_append.mpr (Or.inl hb), ?_⟩
  rw [idxS_append_middle pre post x hxpre]
  exact idxS_append_left pre (x :: post) b hb

theorem topo_descent {edge : String → String → Prop} {l : List String}
    (hnd : l.Nodup) (ht : TopoIds edge l) :
    ∀ a b, Relation.TransGen edge a b → a ∈ l → b ∈ l ∧ idxS l b < idxS l a := by
  intro a b h
  induction h with
  | single hab => exact fun ha => topo_step hnd ht ha hab
  | tail _ hlast ih =>
    intro ha
    obtain ⟨hc, hlt⟩ := ih ha
    obtain ⟨hb, hlt'⟩ := topo_step hnd ht hc hlast
    exact ⟨hb, hlt'.trans hlt⟩

theorem topo_no_cycle {edge : String → String → Prop} {l : List String}
    (hnd : l.Nodup) (ht : TopoIds edge l) {a : String}
    (h : Relation.TransGen edge a a) (ha : a ∈ l) : False := by
  obtain ⟨_, hlt⟩ := topo_descent hnd ht a a h ha
  exact lt_irrefl _ hlt

theorem topo_snoc {edge : String → String → Prop} {L : List String} {x : String}
    (ht : TopoIds edge L) (hx : ∀ b, edge x b → b ∈ L) :
    TopoIds edge (L ++ [x]) := by
  intro pre y post heq b hedge
  rcases List.eq_nil_or_concat post with rfl | ⟨post', z, rfl⟩
  · have := List.append_inj' heq (by rfl)
    obtain ⟨h1, h2⟩ := this
    have hxy : x = y := by simpa using h2
    exact h1 ▸ hx b (hxy ▸ hedge)
  · rw [List.concat_eq_append] at heq
    have heq' : L ++ [x] = (pre ++ y :: post') ++ [z] := by
      simpa using heq
    have := List.append_inj' heq' (by rfl)
    obtain ⟨h1, _⟩ := this
    exact ht pre y post' h1 b hedge

theorem cntNotIn_le_length (l excl : List String) : cntNotIn l excl ≤ l.length :=
  le_trans (List.length_filter_le _ _) (List.Sublist.length_le (List.dedup_sublist l))

theorem cntNotIn_mono (l : List String) {e1 e2 : List String}
    (h : ∀ x ∈ e1, x ∈ e2) : cntNotIn l e2 ≤ cntNotIn l e1 := by
  apply List.Sublist.length_le
  apply List.monotone_filter_right
  intro a
  simp only [decide_eq_true_eq]
  exact fun ha hae1 => ha (h a hae1)

theorem cntNotIn_insert_lt (l excl : List String) (x : String)
    (hx : x ∈ l) (hnx : x ∉ excl) :
    cntNotIn l (x :: excl) < cntNotIn l excl := by
  have hsub : List.Sublist (l.dedup.filter (fun y => decide (y ∉ x :: excl)))
      (l.dedup.filter (fun y => decide (y ∉ excl))) := by
    apply List.monotone_filter_right
    intro a
    simp only [decide_eq_true_eq, List.mem_cons]
    exact fun ha hae => ha (Or.inr hae)
  rcases Nat.lt_or_ge (cntNotIn l (x :: excl)) (cntNotIn l excl) with h | h
  · exact h
  · exfalso
    have hlen : (l.dedup.filter (fun y => decide (y ∉ x :: excl))).length =
        (l.dedup.filter (fun y => decide (y ∉ excl))).length :=
      le_antisymm (List.Sublist.length_le hsub) h
    have heq := List.Sublist.eq_of_length hsub hlen
    have hxmem : x ∈ l.dedup.filter (fun y => decide (y ∉ excl)) := by
      rw [List.mem_filter]
      exact ⟨List.mem_dedup.mpr hx, by simpa using hnx⟩
    rw [← heq] at hxmem
    rw [List.mem_filter] at hxmem
    have hx2 := hxmem.2
    simp at hx2

theorem findField_spec {fields : List FormField} {p : String} {pf : FormField}
    (h : findField fields p = some pf) : pf ∈ fields ∧ pf.id = p := by
  refine ⟨List.mem_of_find?_eq_some h, ?_⟩
  have := List.find?_some h
  simpa using this

theorem findField_of_mem_ids {fields : List FormField} {x : String}
    (hx : x ∈ fields.map FormField.id) :
    ∃ pf, findField fields x = some pf ∧ pf ∈ fields ∧ pf.id = x := by
  obtain ⟨f, hf, hfx⟩ := List.mem_map.mp hx
  have : (findField fields x).isSome := by
    rw [findField, List.find?_isSome]
    exact ⟨f, hf, by simp [hfx]⟩
  obtain ⟨pf, hpf⟩ := Option.isSome_iff_exists.mp this
  obtain ⟨hmem, hid⟩ := findField_spec hpf
  exact ⟨pf, hpf, hmem, hid⟩

theorem fields_id_inj {fields : List FormField}
    (hnd : (fields.map FormField.id).Nodup) {fa fb : FormField}
    (ha : fa ∈ fields) (hb : fb ∈ fields) (heq : fa.id = fb.id) : fa = fb :=
  List.inj_on_of_nodup_map hnd ha hb heq

theorem dfEdge_mem {fields : List FormField} {a b : String}
    (h : dfEdge fields a b) :
    a ∈ fields.map FormField.id ∧ b ∈ fields.map FormField.id := by
  obtain ⟨fa, hfa, hfaid, _, _, _, fb, hfb, hfbid⟩ := h
  exact ⟨List.mem_map.mpr ⟨fa, hfa, hfaid⟩, List.mem_map.mpr ⟨fb, hfb, hfbid⟩⟩

theorem transGen_first_edge {α : Type} {r : α → α → Prop} {a b : α}
    (h : Relation.TransGen r a b) : ∃ c, r a c := by
  induction h with
  | single hab => exact ⟨_, hab⟩
  | tail _ _ ih => exact ih

/- ----------------------------------------------------------------- -/
/- Correctness of detectCircularDependencies (claim C2)              -/
/- ----------------------------------------------------------------- -/

theorem hasCycle_invariant (fields : List FormField)
    (hnd : (fields.map FormField.id).Nodup)
    (hder : ∀ g ∈ fields, g.derivedFrom.isSome = true) :
    ∀ fuel : Nat,
    (∀ (x : String) (st : DetState) (L : List String),
      GoodD fields st L →
      cntNotIn (fields.map FormField.id) st.visited < fuel →
      x ∈ fields.map FormField.id →
      (hasCycle fields fuel x st).1 = false →
      ∃ L', (∃ d, L' = L ++ d) ∧
        GoodD fields (hasCycle fields fuel x st).2 L' ∧
        (hasCycle fields fuel x st).2.recursionStack = st.recursionStack ∧
        (∀ y ∈ st.visited, y ∈ (hasCycle fields fuel x st).2.visited) ∧
        x ∈ L') ∧
    (∀ (ps : List String) (st : DetState) (L : List String),
      GoodD fields st L →
      cntNotIn (fields.map FormField.id) st.visited < fuel →
      (cycleParents fields fuel ps st).1 = false →
      ∃ L', (∃ d, L' = L ++ d) ∧
        GoodD fields (cycleParents fields fuel ps st).2 L' ∧
        (cycleParents fields fuel ps st).2.recursionStack = st.recursionStack ∧
        (∀ y ∈ st.visited, y ∈ (cycleParents fields fuel ps st).2.visited) ∧
        (∀ p ∈ ps, ∀ pf, findField fields p = some pf →
          pf.derivedFrom.isSome = true → p ∈ L')) := by
  intro fuel
  induction fuel with
  | zero =>
    constructor
    · intro x st L _ hcnt _ _
      exact absurd hcnt (Nat.not_lt_zero _)
    · intro ps st L _ hcnt _
      exact absurd hcnt (Nat.not_lt_zero _)
  | succ n ih =>
    have hP : ∀ (x : String) (st : DetState) (L : List String),
        GoodD fields st L →
        cntNotIn (fields.map FormField.id) st.visited < n + 1 →
        x ∈ fields.map FormField.id →
        (hasCycle fields (n + 1) x st).1 = false →
        ∃ L', (∃ d, L' = L ++ d) ∧
          GoodD fields (hasCycle fields (n + 1) x st).2 L' ∧
          (hasCycle fields (n + 1) x st).2.recursionStack = st.recursionStack ∧
          (∀ y ∈ st.visited, y ∈ (hasCycle fields (n + 1) x st).2.visited) ∧
          x ∈ L' := by
      intro x st L hGood hcnt hx hfalse
      by_cases h1 : x ∈ st.recursionStack
      · have hres : hasCycle fields (n + 1) x st = (true, st) := by
          simp only [hasCycle]
          simp [h1]
        rw [hres] at hfalse
        exact absurd hfalse (by simp)
      · by_cases h2 : x ∈ st.visited
        · have hres : hasCycle fields (n + 1) x st = (false, st) := by
            simp only [hasCycle]
            simp [h1, h2]
          rw [hres]
          exact ⟨L, ⟨[], by simp⟩, hGood, rfl, fun y hy => hy,
            (hGood.1 x).mpr ⟨h2, h1⟩⟩
        · obtain ⟨f, hfind, hfmem, hfid⟩ := findField_of_mem_ids hx
          have hfd : f.derivedFrom.isSome = true := hder f hfmem
          obtain ⟨cfg, hcfg⟩ := Option.isSome_iff_exists.mp hfd
          cases hr1 : (cycleParents fields n cfg.parentFields
              ⟨x :: st.visited, x :: st.recursionStack⟩).1 with
          | true =>
            have hres : (hasCycle fields (n + 1) x st).1 = true := by
              simp only [hasCycle]
              simp [h1, h2, hfind, hcfg, hr1]
            rw [hres] at hfalse
            exact absurd hfalse (by simp)
          | false =>
            have hG1 : GoodD fields ⟨x :: st.visited, x :: st.recursionStack⟩ L := by
              refine ⟨?_, hGood.2.1, hGood.2.2.1, ?_⟩
              · intro y
                constructor
                · intro hy
                  obtain ⟨hyv, hys⟩ := (hGood.1 y).mp hy
                  have hyx : y ≠ x := fun h => h2 (h ▸ hyv)
                  exact ⟨List.mem_cons_of_mem x hyv,
                    fun hc => (List.mem_cons.mp hc).elim hyx hys⟩
                · rintro ⟨hyv, hys⟩
                  have hyx : y ≠ x := fun h => hys (h ▸ List.mem_cons_self x _)
                  rcases List.mem_cons.mp hyv with h | h
                  · exact absurd h hyx
                  · exact (hGood.1 y).mpr ⟨h, fun hc => hys (List.mem_cons_of_mem x hc)⟩
              · intro y hy
                rcases List.mem_cons.mp hy with h | h
                · exact h ▸ List.mem_cons_self x st.visited
                · exact List.mem_cons_of_mem x (hGood.2.2.2 y h)
            have hcnt1 : cntNotIn (fields.map FormField.id) (x :: st.visited) < n := by
              have hlt := cntNotIn_insert_lt (fields.map FormField.id) st.visited x hx h2
              omega
            obtain ⟨L2, ⟨d2, hd2⟩, hG2, hstack2, hmono2, hpar2⟩ :=
              ih.2 cfg.parentFields ⟨x :: st.visited, x :: st.recursionStack⟩ L hG1 hcnt1 hr1
            have hxv2 : x ∈ (cycleParents fields n cfg.parentFields
                ⟨x :: st.visited, x :: st.recursionStack⟩).2.visited :=
              hmono2 x (List.mem_cons_self x st.visited)
            have hxstack2 : x ∈ (cycleParents fields n cfg.parentFields
                ⟨x :: st.visited, x :: st.recursionStack⟩).2.recursionStack := by
              rw [hstack2]
              exact List.mem_cons_self x st.recursionStack
            have hxnotL2 : x ∉ L2 := fun hmem => ((hG2.1 x).mp hmem).2 hxstack2
            have herase : (cycleParents fields n cfg.parentFields
                ⟨x :: st.visited, x :: st.recursionStack⟩).2.recursionStack.erase x =
                st.recursionStack := by
              rw [hstack2]
              exact List.erase_cons_head x st.recursionStack
            have hres : hasCycle fields (n + 1) x st =
                (false,
                 ⟨(cycleParents fields n cfg.parentFields
                     ⟨x :: st.visited, x :: st.recursionStack⟩).2.visited,
                  st.recursionStack⟩) := by
              simp only [hasCycle]
              simp [h1, h2, hfind, hcfg, hr1, herase]
            rw [hres]
            refine ⟨L2 ++ [x], ⟨d2 ++ [x], by rw [hd2, List.append_assoc]⟩, ?_, rfl, ?_, ?_⟩
            · refine ⟨?_, ?_, ?_, ?_⟩
              · intro y
                constructor
                · intro hy
                  rcases List.mem_append.mp hy with h | h
                  · obtain ⟨hyv, hys⟩ := (hG2.1 y).mp h
                    refine ⟨hyv, ?_⟩
                    intro hc
                    apply hys
                    rw [hstack2]
                    exact List.mem_cons_of_mem x hc
                  · rw [List.mem_singleton] at h
                    subst h
                    exact ⟨hxv2, h1⟩
                · rintro ⟨hyv, hys⟩
                  by_cases hyx : y = x
                  · subst hyx
                    exact List.mem_append.mpr (Or.inr (List.mem_singleton.mpr rfl))
                  · apply List.mem_append.mpr
                    left
                    apply (hG2.1 y).mpr
                    refine ⟨hyv, ?_⟩
                    rw [hstack2]
                    intro hc
                    rcases List.mem_cons.mp hc with h | h
                    · exact hyx h
                    · exact hys h
              · rw [List.nodup_append]
                refine ⟨hG2.2.1, List.nodup_singleton x, ?_⟩
                intro a ha hax
                rw [List.mem_singleton] at hax
                exact hxnotL2 (hax ▸ ha)
              · apply topo_snoc hG2.2.2.1
                intro b he
                obtain ⟨fa, hfa, hfaid, cfg', hcfg', hbpar, fb, hfb, hfbid⟩ := he
                have hfaf : fa = f := fields_id_inj hnd hfa hfmem (hfaid.trans hfid.symm)
                subst hfaf
                rw [hcfg] at hcfg'
                have hcfgeq : cfg = cfg' := by injection hcfg'
                subst hcfgeq
                have hbids : b ∈ fields.map FormField.id :=
                  List.mem_map.mpr ⟨fb, hfb, hfbid⟩
                obtain ⟨pf', hfind', hpfmem', hpfid'⟩ := findField_of_mem_ids hbids
                exact hpar2 b hbpar pf' hfind' (hder pf' hpfmem')
              · intro y hy
                exact hmono2 y (List.mem_cons_of_mem x (hGood.2.2.2 y hy))
            · intro y hy
              exact hmono2 y (List.mem_cons_of_mem x hy)
            · exact List.mem_append.mpr (Or.inr (List.mem_singleton.mpr rfl))
    refine ⟨hP, ?_⟩
    intro ps
    induction ps with
    | nil =>
      intro st L hGood hcnt hfalse
      have hres : cycleParents fields (n + 1) [] st = (false, st) := by
        simp [cycleParents]
      rw [hres]
      exact ⟨L, ⟨[], by simp⟩, hGood, rfl, fun y hy => hy,
        fun p hp => absurd hp (List.not_mem_nil p)⟩
    | cons p rest ihp =>
      intro st L hGood hcnt hfalse
      rcases hfind : findField fields p with _ | pf
      · have hres : cycleParents fields (n + 1) (p :: rest) st =
            cycleParents fields (n + 1) rest st := by
          simp only [cycleParents]
          simp [hfind]
        rw [hres] at hfalse ⊢
        obtain ⟨L', hd, hG, hstack, hmono, hall⟩ := ihp st L hGood hcnt hfalse
        refine ⟨L', hd, hG, hstack, hmono, ?_⟩
        intro q hq pf' hfind' hds'
        rcases List.mem_cons.mp hq with h | h
        · subst h
          rw [hfind] at hfind'
          exact absurd hfind' (by simp)
        · exact hall q h pf' hfind' hds'
      · by_cases hds : pf.derivedFrom.isSome = true
        · cases hr1 : (hasCycle fields (n + 1) p st).1 with
          | true =>
            have hres : (cycleParents fields (n + 1) (p :: rest) st).1 = true := by
              simp only [cycleParents]
              simp [hfind, hds, hr1]
            rw [hres] at hfalse
            exact absurd hfalse (by simp)
          | false =>
            have hres : cycleParents fields (n + 1) (p :: rest) st =
                cycleParents fields (n + 1) rest (hasCycle fields (n + 1) p st).2 := by
              simp only [cycleParents]
              simp [hfind, hds, hr1]
            rw [hres] at hfalse ⊢
            have hpids : p ∈ fields.map FormField.id := by
              obtain ⟨hmem, hid⟩ := findField_spec hfind
              exact List.mem_map.mpr ⟨pf, hmem, hid⟩
            obtain ⟨L1, ⟨d1, hd1⟩, hG1, hstack1, hmono1, hpL1⟩ :=
              hP p st L hGood hcnt hpids hr1
            have hcnt1 : cntNotIn (fields.map FormField.id)
                (hasCycle fields (n + 1) p st).2.visited < n + 1 :=
              lt_of_le_of_lt (cntNotIn_mono _ hmono1) hcnt
            obtain ⟨L2, ⟨d2, hd2⟩, hG2, hstack2, hmono2, hall2⟩ :=
              ihp (hasCycle fields (n + 1) p st).2 L1 hG1 hcnt1 hfalse
            refine ⟨L2, ⟨d1 ++ d2, by rw [hd2, hd1, List.append_assoc]⟩, hG2,
              hstack2.trans hstack1, fun y hy => hmono2 y (hmono1 y hy), ?_⟩
            intro q hq pf' hfind' hds'
            rcases List.mem_cons.mp hq with h | h
            · subst h
              rw [hd2]
              exact List.mem_append.mpr (Or.inl hpL1)
            · exact hall2 q h pf' hfind' hds'
        · have hres : cycleParents fields (n + 1) (p :: rest) st =
              cycleParents fields (n + 1) rest st := by
            simp only [cycleParents]
            simp [hfind, hds]
          rw [hres] at hfalse ⊢
          obtain ⟨L', hd, hG, hstack, hmono, hall⟩ := ihp st L hGood hcnt hfalse
          refine ⟨L', hd, hG, hstack, hmono, ?_⟩
          intro q hq pf' hfind' hds'
          rcases List.mem_cons.mp hq with h | h
          · subst h
            rw [hfind] at hfind'
            have : pf = pf' := by injection hfind'
            exact absurd (this ▸ hds') hds
          · exact hall q h pf' hfind' hds'

theorem detectLoop_good (fields : List FormField)
    (hnd : (fields.map FormField.id).Nodup)
    (hder : ∀ g ∈ fields, g.derivedFrom.isSome = true) :
    ∀ (l : List FormField) (st : DetState) (L : List String),
    (∀ f ∈ l, f ∈ fields) →
    GoodD fields st L →
    detectLoop fields l st = none →
    ∃ st' L', GoodD fields st' L' ∧
      st'.recursionStack = st.recursionStack ∧
      (∀ y ∈ st.visited, y ∈ st'.visited) ∧
      (∀ f ∈ l, f.id ∈ st'.visited) := by
  intro l
  induction l with
  | nil =>
    intro st L _ hGood _
    exact ⟨st, L, hGood, rfl, fun y hy => hy, fun f hf => absurd hf (List.not_mem_nil f)⟩
  | cons f rest ih =>
    intro st L hl hGood hnone
    by_cases h1 : f.id ∈ st.visited
    · have hres : detectLoop fields (f :: rest) st = detectLoop fields rest st := by
        simp only [detectLoop]
        simp [h1]
      rw [hres] at hnone
      obtain ⟨st', L', hG', hstack', hmono', hall'⟩ :=
        ih st L (fun g hg => hl g (List.mem_cons_of_mem f hg)) hGood hnone
      refine ⟨st', L', hG', hstack', hmono', ?_⟩
      intro g hg
      rcases List.mem_cons.mp hg with h | h
      · exact h ▸ hmono' f.id h1
      · exact hall' g h
    · cases hr1 : (hasCycle fields (fields.length + 1) f.id st).1 with
      | true =>
        have hres : detectLoop fields (f :: rest) st = some circularDependencyError := by
          simp only [detectLoop]
          simp [h1, hr1]
        rw [hres] at hnone
        exact absurd hnone (by simp)
      | false =>
        have hres : detectLoop fields (f :: rest) st =
            detectLoop fields rest (hasCycle fields (fields.length + 1) f.id st).2 := by
          simp only [detectLoop]
          simp [h1, hr1]
        rw [hres] at hnone
        have hcnt : cntNotIn (fields.map FormField.id) st.visited < fields.length + 1 := by
          have h := cntNotIn_le_length (fields.map FormField.id) st.visited
          simp only [List.length_map] at h
          omega
        have hfids : f.id ∈ fields.map FormField.id :=
          List.mem_map.mpr ⟨f, hl f (List.mem_cons_self f rest), rfl⟩
        obtain ⟨L1, _, hG1, hstack1, hmono1, hfL1⟩ :=
          (hasCycle_invariant fields hnd hder (fields.length + 1)).1 f.id st L
            hGood hcnt hfids hr1
        obtain ⟨st', L', hG', hstack', hmono', hall'⟩ :=
          ih (hasCycle fields (fields.length + 1) f.id st).2 L1
            (fun g hg => hl g (List.mem_cons_of_mem f hg)) hG1 hnone
        refine ⟨st', L', hG', hstack'.trans hstack1,
          fun y hy => hmono' y (hmono1 y hy), ?_⟩
        intro g hg
        rcases List.mem_cons.mp hg with h | h
        · subst h
          exact hmono' g.id ((hG1.1 g.id).mp hfL1).1
        · exact hall' g h

theorem detect_none_acyclic (fields : List FormField)
    (hnd : (fields.map FormField.id).Nodup)
    (hder : ∀ g ∈ fields, g.derivedFrom.isSome = true)
    (h : detectCircularDependencies fields = none) : AcyclicDeps fields := by
  have hinit : GoodD fields ⟨[], []⟩ [] := by
    refine ⟨?_, List.nodup_nil, ?_, ?_⟩
    · intro x
      simp
    · intro pre x post heq
      exact absurd heq (by simp)
    · intro x hx
      exact absurd hx (List.not_mem_nil x)
  obtain ⟨st', L', hG', hstack', _, hall'⟩ :=
    detectLoop_good fields hnd hder fields ⟨[], []⟩ [] (fun _ hx => hx) hinit h
  intro a hTG
  obtain ⟨c, hedge⟩ := transGen_first_edge hTG
  have ha : a ∈ fields.map FormField.id := (dfEdge_mem hedge).1
  obtain ⟨fa, hfa, hfaid⟩ := List.mem_map.mp ha
  have hav : a ∈ st'.visited := hfaid ▸ hall' fa hfa
  have haL : a ∈ L' := (hG'.1 a).mpr ⟨hav, by rw [hstack']; exact List.not_mem_nil a⟩
  exact topo_no_cycle hG'.2.1 hG'.2.2.1 hTG haL

theorem detectLoop_const (fields : List FormField) :
    ∀ (l : List FormField) (st : DetState) (e : DerivedFieldError),
    detectLoop fields l st = some e → e = circularDependencyError := by
  intro l
  induction l with
  | nil =>
    intro st e h
    rw [detectLoop] at h
    exact absurd h (by simp)
  | cons f rest ih =>
    intro st e h
    rw [detectLoop] at h
    by_cases h1 : f.id ∈ st.visited
    · rw [if_pos h1] at h
      exact ih st e h
    · rw [if_neg h1] at h
      cases hr1 : (hasCycle fields (fields.length + 1) f.id st).1 with
      | true =>
        simp only [hr1] at h
        simp at h
        exact h.symm
      | false =>
        simp only [hr1] at h
        simp only [Bool.false_eq_true, if_false] at h
        exact ih _ e h

theorem cycle_detected (fields : List FormField)
    (hnd : (fields.map FormField.id).Nodup)
    (hder : ∀ g ∈ fields, g.derivedFrom.isSome = true)
    (hcyc : ∃ a, Relation.TransGen (dfEdge fields) a a) :
    detectCircularDependencies fields = some circularDependencyError := by
  rcases hdet : detectCircularDependencies fields with _ | e
  · obtain ⟨a, ha⟩ := hcyc
    exact absurd ha (detect_none_acyclic fields hnd hder hdet a)
  · rw [detectLoop_const fields fields ⟨[], []⟩ e hdet]

theorem foldl_seterr_lookup (err : DerivedFieldError) :
    ∀ (l : List FormField) (init : Assoc DerivedFieldError),
    (∀ k v, lookupA init k = some v → v = err) →
    ((∀ k v, lookupA (l.foldl (fun es f => setA es f.id err) init) k = some v → v = err) ∧
     (∀ k, lookupA init k = some err →
        lookupA (l.foldl (fun es f => setA es f.id err) init) k = some err) ∧
     (∀ f ∈ l, lookupA (l.foldl (fun es f => setA es f.id err) init) f.id = some err)) := by
  intro l
  induction l with
  | nil =>
    intro init hinit
    exact ⟨hinit, fun k hk => hk, fun f hf => absurd hf (List.not_mem_nil f)⟩
  | cons f rest ih =>
    intro init hinit
    have hinit' : ∀ k v, lookupA (setA init f.id err) k = some v → v = err := by
      intro k v hk
      by_cases hkf : f.id = k
      · subst hkf
        rw [lookupA_setA_self] at hk
        injection hk with hk
        exact hk.symm
      · rw [lookupA_setA_ne init f.id k err hkf] at hk
        exact hinit k v hk
    obtain ⟨hA, hB, hC⟩ := ih (setA init f.id err) hinit'
    refine ⟨hA, ?_, ?_⟩
    · intro k hk
      apply hB
      by_cases hkf : f.id = k
      · subst hkf
        rw [lookupA_setA_self]
      · rw [lookupA_setA_ne init f.id k err hkf]
        exact hk
    · intro g hg
      rcases List.mem_cons.mp hg with h | h
      · subst h
        apply hB
        rw [lookupA_setA_self]
      · exact hC g h

/-- C2: for a schema whose derived-field dependency relation (including
self-reference) has a cycle, `updateDerivedFields` returns the input
values unchanged and an errors map carrying the `circular_dependency`
error for every derived field of the schema, not just the cycle
members. -/
theorem C2_cycle_invalidates_all (oracle : Oracle) (vals : Rmap) (schema : FormSchema)
    (hnd : (schema.fields.map FormField.id).Nodup)
    (hcyc : ∃ a, Relation.TransGen (dfEdge (derivedFieldsOf schema)) a a) :
    (updateDerivedFields oracle vals schema).values = vals ∧
    ∀ f ∈ derivedFieldsOf schema,
      lookupA (updateDerivedFields oracle vals schema).errors f.id =
        some circularDependencyError := by
  have hnd' : ((derivedFieldsOf schema).map FormField.id).Nodup := by
    apply List.Nodup.sublist _ hnd
    exact List.Sublist.map FormField.id (List.filter_sublist schema.fields)
  have hder : ∀ g ∈ derivedFieldsOf schema, g.derivedFrom.isSome = true := by
    intro g hg
    have := List.of_mem_filter hg
    simpa using this
  have hdet := cycle_detected (derivedFieldsOf schema) hnd' hder hcyc
  constructor
  · unfold updateDerivedFields
    simp only [hdet]
  · intro f hf
    unfold updateDerivedFields
    simp only [hdet]
    exact (foldl_seterr_lookup circularDependencyError (derivedFieldsOf schema) []
      (by intro k v hk; exact absurd hk (by simp [lookupA]))).2.2 f hf

/-- C2 witness: the spec's own two-field cycle `x ↔ y` leaves the values
map untouched and marks both fields with the circular-dependency
error. -/
theorem C2_witness :
    (updateDerivedFields nullOracle [("x", Value.num 1)] cycleSchema).values =
      [("x", Value.num 1)] ∧
    lookupA (updateDerivedFields nullOracle [("x", Value.num 1)] cycleSchema).errors
      "x" = some circularDependencyError ∧
    lookupA (updateDerivedFields nullOracle [("x", Value.num 1)] cycleSchema).errors
      "y" = some circularDependencyError := by
  have hD : derivedFieldsOf cycleSchema = [cycleFieldX, cycleFieldY] := rfl
  have hmemX : cycleFieldX ∈ derivedFieldsOf cycleSchema := by
    rw [hD]
    exact List.mem_cons_self _ _
  have hmemY : cycleFieldY ∈ derivedFieldsOf cycleSchema := by
    rw [hD]
    exact List.mem_cons_of_mem _ (List.mem_cons_self _ _)
  have hxy : dfEdge (derivedFieldsOf cycleSchema) "x" "y" :=
    ⟨cycleFieldX, hmemX, rfl,
     { parentFields := ["y"], computationLogic := "y + 1" }, rfl,
     List.mem_singleton.mpr rfl, cycleFieldY, hmemY, rfl⟩
  have hyx : dfEdge (derivedFieldsOf cycleSchema) "y" "x" :=
    ⟨cycleFieldY, hmemY, rfl,
     { parentFields := ["x"], computationLogic := "x + 1" }, rfl,
     List.mem_singleton.mpr rfl, cycleFieldX, hmemX, rfl⟩
  have hcyc : ∃ a, Relation.TransGen (dfEdge (derivedFieldsOf cycleSchema)) a a :=
    ⟨"x", Relation.TransGen.tail (Relation.TransGen.single hxy) hyx⟩
  have h := C2_cycle_invalidates_all nullOracle [("x", Value.num 1)] cycleSchema
    (by decide) hcyc
  exact ⟨h.1, h.2 cycleFieldX hmemX, h.2 cycleFieldY hmemY⟩

/- ----------------------------------------------------------------- -/
/- Correctness of sortFieldsByDependencies (claim C1)                -/
/- ----------------------------------------------------------------- -/

theorem visit_invariant (fields : List FormField)
    (hnd : (fields.map FormField.id).Nodup)
    (hder : ∀ g ∈ fields, g.derivedFrom.isSome = true)
    (hacyc : AcyclicDeps fields) :
    ∀ fuel : Nat,
    (∀ (f : FormField) (st : SortState),
      GoodS fields st →
      cntNotIn (fields.map FormField.id) st.temp < fuel →
      f ∈ fields →
      (∀ y ∈ st.temp, Relation.TransGen (dfEdge fields) y f.id) →
      GoodS fields (visitField fields fuel f st) ∧
      (visitField fields fuel f st).temp = st.temp ∧
      (∀ y ∈ st.visited, y ∈ (visitField fields fuel f st).visited) ∧
      (∃ d, (visitField fields fuel f st).sorted = st.sorted ++ d) ∧
      f.id ∈ (visitField fields fuel f st).visited ∧
      (∀ y, y ∈ (visitField fields fuel f st).visited →
        y ∈ st.visited ∨ y ∉ st.temp)) ∧
    (∀ (ps : List String) (st : SortState),
      GoodS fields st →
      cntNotIn (fields.map FormField.id) st.temp < fuel →
      (∀ p ∈ ps, ∀ pf, findField fields p = some pf → pf.derivedFrom.isSome = true →
        ∀ y ∈ st.temp, Relation.TransGen (dfEdge fields) y p) →
      GoodS fields (visitParents fields fuel ps st) ∧
      (visitParents fields fuel ps st).temp = st.temp ∧
      (∀ y ∈ st.visited, y ∈ (visitParents fields fuel ps st).visited) ∧
      (∃ d, (visitParents fields fuel ps st).sorted = st.sorted ++ d) ∧
      (∀ p ∈ ps, ∀ pf, findField fields p = some pf → pf.derivedFrom.isSome = true →
        p ∈ (visitParents fields fuel ps st).visited) ∧
      (∀ y, y ∈ (visitParents fields fuel ps st).visited →
        y ∈ st.visited ∨ y ∉ st.temp)) := by
  intro fuel
  induction fuel with
  | zero =>
    constructor
    · intro f st _ hcnt _ _
      exact absurd hcnt (Nat.not_lt_zero _)
    · intro ps st _ hcnt _
      exact absurd hcnt (Nat.not_lt_zero _)
  | succ n ih =>
    have hP : ∀ (f : FormField) (st : SortState),
        GoodS fields st →
        cntNotIn (fields.map FormField.id) st.temp < n + 1 →
        f ∈ fields →
        (∀ y ∈ st.temp, Relation.TransGen (dfEdge fields) y f.id) →
        GoodS fields (visitField fields (n + 1) f st) ∧
        (visitField fields (n + 1) f st).temp = st.temp ∧
        (∀ y ∈ st.visited, y ∈ (visitField fields (n + 1) f st).visited) ∧
        (∃ d, (visitField fields (n + 1) f st).sorted = st.sorted ++ d) ∧
        f.id ∈ (visitField fields (n + 1) f st).visited ∧
        (∀ y, y ∈ (visitField fields (n + 1) f st).visited →
          y ∈ st.visited ∨ y ∉ st.temp) := by
      intro f st hGood hcnt hf hpath
      by_cases h1 : f.id ∈ st.temp
      · exact absurd (hpath f.id h1) (hacyc f.id)
      · by_cases h2 : f.id ∈ st.visited
        · have hres : visitField fields (n + 1) f st = st := by
            simp only [visitField]
            simp [h1, h2]
          rw [hres]
          exact ⟨hGood, rfl, fun y hy => hy, ⟨[], by simp⟩, h2, fun y hy => Or.inl hy⟩
        · have hfd : f.derivedFrom.isSome = true := hder f hf
          obtain ⟨cfg, hcfg⟩ := Option.isSome_iff_exists.mp hfd
          have hfids : f.id ∈ fields.map FormField.id := List.mem_map.mpr ⟨f, hf, rfl⟩
          have hG1 : GoodS fields { st with temp := f.id :: st.temp } := hGood
          have hcnt1 : cntNotIn (fields.map FormField.id) (f.id :: st.temp) < n := by
            have hlt := cntNotIn_insert_lt (fields.map FormField.id) st.temp f.id hfids h1
            omega
          have hpath1 : ∀ p ∈ cfg.parentFields, ∀ pf, findField fields p = some pf →
              pf.derivedFrom.isSome = true →
              ∀ y ∈ ({ st with temp := f.id :: st.temp } : SortState).temp,
              Relation.TransGen (dfEdge fields) y p := by
            intro p hp pf hpf _ y hy
            obtain ⟨hpfmem, hpfid⟩ := findField_spec hpf
            have hedge : dfEdge fields f.id p :=
              ⟨f, hf, rfl, cfg, hcfg, hp, pf, hpfmem, hpfid⟩
            rcases List.mem_cons.mp hy with h | h
            · exact h ▸ Relation.TransGen.single hedge
            · exact Relation.TransGen.tail (hpath y h) hedge
          obtain ⟨hG2, htemp2, hmono2, ⟨d2, hsort2⟩, hvisall2, hnew2⟩ :=
            ih.2 cfg.parentFields { st with temp := f.id :: st.temp } hG1 hcnt1 hpath1
          have hfnotv2 : f.id ∉
              (visitParents fields n cfg.parentFields
                { st with temp := f.id :: st.temp }).visited := by
            intro hmem
            rcases hnew2 f.id hmem with h | h
            · exact h2 h
            · exact h (List.mem_cons_self f.id st.temp)
          have herase : (visitParents fields n cfg.parentFields
              { st with temp := f.id :: st.temp }).temp.erase f.id = st.temp := by
            rw [htemp2]
            exact List.erase_cons_head f.id st.temp
          have hres : visitField fields (n + 1) f st =
              ⟨(visitParents fields n cfg.parentFields
                  { st with temp := f.id :: st.temp }).sorted ++ [f],
               f.id :: (visitParents fields n cfg.parentFields
                  { st with temp := f.id :: st.temp }).visited,
               st.temp⟩ := by
            simp only [visitField]
            simp [h1, h2, hcfg, herase]
          rw [hres]
          have hfnotids2 : f.id ∉
              ((visitParents fields n cfg.parentFields
                { st with temp := f.id :: st.temp }).sorted.map FormField.id) :=
            fun hmem => hfnotv2 ((hG2.1 f.id).mpr hmem)
          refine ⟨⟨?_, ?_, ?_⟩, rfl, ?_, ?_, ?_, ?_⟩
          · intro y
            rw [List.map_append]
            constructor
            · intro hy
              rcases List.mem_cons.mp hy with h | h
              · subst h
                exact List.mem_append.mpr (Or.inr (by simp))
              · exact List.mem_append.mpr (Or.inl ((hG2.1 y).mp h))
            · intro hy
              rcases List.mem_append.mp hy with h | h
              · exact List.mem_cons_of_mem _ ((hG2.1 y).mpr h)
              · simp only [List.map_cons, List.map_nil, List.mem_singleton] at h
                exact h ▸ List.mem_cons_self _ _
          · rw [List.map_append]
            rw [List.nodup_append]
            refine ⟨hG2.2.1, by simp, ?_⟩
            intro a ha hax
            simp only [List.map_cons, List.map_nil, List.mem_singleton] at hax
            exact hfnotids2 (hax ▸ ha)
          · rw [List.map_append]
            simp only [List.map_cons, List.map_nil]
            apply topo_snoc hG2.2.2
            intro b he
            obtain ⟨fa, hfa, hfaid, cfg', hcfg', hbpar, fb, hfb, hfbid⟩ := he
            have hfaf : fa = f := fields_id_inj hnd hfa hf hfaid
            subst hfaf
            rw [hcfg] at hcfg'
            have hcfgeq : cfg = cfg' := by injection hcfg'
            subst hcfgeq
            have hbids : b ∈ fields.map FormField.id := List.mem_map.mpr ⟨fb, hfb, hfbid⟩
            obtain ⟨pf', hfind', hpfmem', hpfid'⟩ := findField_of_mem_ids hbids
            have hbvis := hvisall2 b hbpar pf' hfind' (hder pf' hpfmem')
            exact (hG2.1 b).mp hbvis
          · intro y hy
            exact List.mem_cons_of_mem _ (hmono2 y hy)
          · exact ⟨d2 ++ [f], by rw [hsort2, List.append_assoc]⟩
          · exact List.mem_cons_self _ _
          · intro y hy
            rcases List.mem_cons.mp hy with h | h
            · exact Or.inr (h ▸ h1)
            · rcases hnew2 y h with h' | h'
              · exact Or.inl h'
              · exact Or.inr (fun hc => h' (List.mem_cons_of_mem f.id hc))
    refine ⟨hP, ?_⟩
    intro ps
    induction ps with
    | nil =>
      intro st hGood hcnt _
      have hres : visitParents fields (n + 1) [] st = st := by
        simp [visitParents]
      rw [hres]
      exact ⟨hGood, rfl, fun y hy => hy, ⟨[], by simp⟩,
        fun p hp => absurd hp (List.not_mem_nil p), fun y hy => Or.inl hy⟩
    | cons p rest ihp =>
      intro st hGood hcnt hpaths
      rcases hfind : findField fields p with _ | pf
      · have hres : visitParents fields (n + 1) (p :: rest) st =
            visitParents fields (n + 1) rest st := by
          simp only [visitParents]
          simp [hfind]
        rw [hres]
        have hpaths' : ∀ q ∈ rest, ∀ pf, findField fields q = some pf →
            pf.derivedFrom.isSome = true →
            ∀ y ∈ st.temp, Relation.TransGen (dfEdge fields) y q :=
          fun q hq => hpaths q (List.mem_cons_of_mem p hq)
        obtain ⟨hG, htemp, hmono, hsort, hall, hnew⟩ := ihp st hGood hcnt hpaths'
        refine ⟨hG, htemp, hmono, hsort, ?_, hnew⟩
        intro q hq pf' hfind' hds'
        rcases List.mem_cons.mp hq with h | h
        · subst h
          rw [hfind] at hfind'
          exact absurd hfind' (by simp)
        · exact hall q h pf' hfind' hds'
      · by_cases hds : pf.derivedFrom.isSome = true
        · have hres : visitParents fields (n + 1) (p :: rest) st =
              visitParents fields (n + 1) rest (visitField fields (n + 1) pf st) := by
            simp only [visitParents]
            simp [hfind, hds]
          rw [hres]
          obtain ⟨hpfmem, hpfid⟩ := findField_spec hfind
          have hpath1 : ∀ y ∈ st.temp, Relation.TransGen (dfEdge fields) y pf.id := by
            intro y hy
            exact hpfid ▸ hpaths p (List.mem_cons_self p rest) pf hfind hds y hy
          obtain ⟨hG1, htemp1, hmono1, ⟨d1, hsort1⟩, hpv1, hnew1⟩ :=
            hP pf st hGood hcnt hpfmem hpath1
          have hcnt1 : cntNotIn (fields.map FormField.id)
              (visitField fields (n + 1) pf st).temp < n + 1 := by
            rw [htemp1]
            exact hcnt
          have hpaths' : ∀ q ∈ rest, ∀ pf', findField fields q = some pf' →
              pf'.derivedFrom.isSome = true →
              ∀ y ∈ (visitField fields (n + 1) pf st).temp,
              Relation.TransGen (dfEdge fields) y q := by
            rw [htemp1]
            exact fun q hq => hpaths q (List.mem_cons_of_mem p hq)
          obtain ⟨hG2, htemp2, hmono2, ⟨d2, hsort2⟩, hall2, hnew2⟩ :=
            ihp (visitField fields (n + 1) pf st) hG1 hcnt1 hpaths'
          refine ⟨hG2, htemp2.trans htemp1, fun y hy => hmono2 y (hmono1 y hy),
            ⟨d1 ++ d2, by rw [hsort2, hsort1, List.append_assoc]⟩, ?_, ?_⟩
          · intro q hq pf' hfind' hds'
            rcases List.mem_cons.mp hq with h | h
            · subst h
              have hpv : q ∈ (visitField fields (n + 1) pf st).visited := hpfid ▸ hpv1
              exact hmono2 q hpv
            · exact hall2 q h pf' hfind' hds'
          · intro y hy
            rcases hnew2 y hy with h | h
            · rcases hnew1 y h with h' | h'
              · exact Or.inl h'
              · exact Or.inr h'
            · rw [htemp1] at h
              exact Or.inr h
        · have hres : visitParents fields (n + 1) (p :: rest) st =
              visitParents fields (n + 1) rest st := by
            simp only [visitParents]
            simp [hfind, hds]
          rw [hres]
          have hpaths' : ∀ q ∈ rest, ∀ pf', findField fields q = some pf' →
              pf'.derivedFrom.isSome = true →
              ∀ y ∈ st.temp, Relation.TransGen (dfEdge fields) y q :=
            fun q hq => hpaths q (List.mem_cons_of_mem p hq)

          obtain ⟨hG, htemp, hmono, hsort, hall, hnew⟩ := ihp st hGood hcnt hpaths'
          refine ⟨hG, htemp, hmono, hsort, ?_, hnew⟩
          intro q hq pf' hfind' hds'
          rcases List.mem_cons.mp hq with h | h
          · subst h
            rw [hfind] at hfind'
            have : pf = pf' := by injection hfind'
            exact absurd (this ▸ hds') hds
          · exact hall q h pf' hfind' hds'

theorem sortLoop_invariant (fields : List FormField)
    (hnd : (fields.map FormField.id).Nodup)
    (hder : ∀ g ∈ fields, g.derivedFrom.isSome = true)
    (hacyc : AcyclicDeps fields) :
    ∀ (l : List FormField) (st : SortState),
    (∀ f ∈ l, f ∈ fields) →
    GoodS fields st → st.temp = [] →
    GoodS fields (sortLoop fields l st) ∧
    (sortLoop fields l st).temp = [] ∧
    (∀ y ∈ st.visited, y ∈ (sortLoop fields l st).visited) ∧
    (∀ f ∈ l, f.id ∈ (sortLoop fields l st).visited) := by
  intro l
  induction l with
  | nil =>
    intro st _ hGood htemp
    rw [sortLoop]
    exact ⟨hGood, htemp, fun y hy => hy, fun f hf => absurd hf (List.not_mem_nil f)⟩
  | cons f rest ih =>
    intro st hl hGood htemp
    by_cases h1 : f.id ∈ st.visited
    · have hres : sortLoop fields (f :: rest) st = sortLoop fields rest st := by
        rw [sortLoop, if_pos h1]
      rw [hres]
      obtain ⟨hG, ht, hmono, hall⟩ :=
        ih st (fun g hg => hl g (List.mem_cons_of_mem f hg)) hGood htemp
      refine ⟨hG, ht, hmono, ?_⟩
      intro g hg
      rcases List.mem_cons.mp hg with h | h
      · exact h ▸ hmono f.id h1
      · exact hall g h
    · have hres : sortLoop fields (f :: rest) st =
          sortLoop fields rest (visitField fields (fields.length + 1) f st) := by
        rw [sortLoop, if_neg h1]
      rw [hres]
      have hcnt : cntNotIn (fields.map FormField.id) st.temp < fields.length + 1 := by
        have h := cntNotIn_le_length (fields.map FormField.id) st.temp
        simp only [List.length_map] at h
        omega
      have hpath : ∀ y ∈ st.temp, Relation.TransGen (dfEdge fields) y f.id := by
        rw [htemp]
        intro y hy
        exact absurd hy (List.not_mem_nil y)
      obtain ⟨hG1, htemp1, hmono1, _, hfv1, _⟩ :=
        (visit_invariant fields hnd hder hacyc (fields.length + 1)).1 f st hGood hcnt
          (hl f (List.mem_cons_self f rest)) hpath
      obtain ⟨hG2, ht2, hmono2, hall2⟩ :=
        ih (visitField fields (fields.length + 1) f st)
          (fun g hg => hl g (List.mem_cons_of_mem f hg)) hG1 (htemp1.trans htemp)
      refine ⟨hG2, ht2, fun y hy => hmono2 y (hmono1 y hy), ?_⟩
      intro g hg
      rcases List.mem_cons.mp hg with h | h
      · exact h ▸ hmono2 f.id hfv1
      · exact hall2 g h

/-- C1: for a schema whose derived-field dependency relation is acyclic
(with duplicate-free field ids), the evaluation order produced by
`sortFieldsByDependencies` places every derived field strictly after
every derived field it transitively depends on, so the
`updateDerivedFields` pass reads freshly computed parent values. -/
theorem C1_topological_order (schema : FormSchema)
    (hnd : (schema.fields.map FormField.id).Nodup)
    (hacyc : AcyclicDeps (derivedFieldsOf schema)) :
    ∀ a b, Relation.TransGen (dfEdge (derivedFieldsOf schema)) a b →
      a ∈ (sortFieldsByDependencies (derivedFieldsOf schema)).map FormField.id ∧
      b ∈ (sortFieldsByDependencies (derivedFieldsOf schema)).map FormField.id ∧
      posIn (sortFieldsByDependencies (derivedFieldsOf schema)) b <
        posIn (sortFieldsByDependencies (derivedFieldsOf schema)) a := by
  have hnd' : ((derivedFieldsOf schema).map FormField.id).Nodup := by
    apply List.Nodup.sublist _ hnd
    exact List.Sublist.map FormField.id (List.filter_sublist schema.fields)
  have hder : ∀ g ∈ derivedFieldsOf schema, g.derivedFrom.isSome = true := by
    intro g hg
    have := List.of_mem_filter hg
    simpa using this
  intro a b hab
  have hinit : GoodS (derivedFieldsOf schema) ⟨[], [], []⟩ := by
    refine ⟨?_, List.nodup_nil, ?_⟩
    · intro x
      simp
    · intro pre x post heq
      exact absurd heq (by simp)
  obtain ⟨hG, _, _, hall⟩ :=
    sortLoop_invariant (derivedFieldsOf schema) hnd' hder hacyc
      (derivedFieldsOf schema) ⟨[], [], []⟩ (fun _ hx => hx) hinit rfl
  obtain ⟨c, hedge⟩ := transGen_first_edge hab
  have ha : a ∈ (derivedFieldsOf schema).map FormField.id := (dfEdge_mem hedge).1
  obtain ⟨fa, hfa, hfaid⟩ := List.mem_map.mp ha
  have hav : a ∈ (sortLoop (derivedFieldsOf schema) (derivedFieldsOf schema)
      ⟨[], [], []⟩).visited := hfaid ▸ hall fa hfa
  have haS : a ∈ (sortFieldsByDependencies (derivedFieldsOf schema)).map FormField.id :=
    (hG.1 a).mp hav
  obtain ⟨hbS, hlt⟩ := topo_descent hG.2.1 hG.2.2 a b hab haS
  exact ⟨haS, hbS, hlt⟩

/-- C1 witness: in the concrete acyclic chain schema (`c` depends on `b`
depends on plain `a`), the produced order places `b` before `c`. -/
theorem C1_witness :
    "c" ∈ (sortFieldsByDependencies (derivedFieldsOf chainSchema)).map FormField.id ∧
    "b" ∈ (sortFieldsByDependencies (derivedFieldsOf chainSchema)).map FormField.id ∧
    posIn (sortFieldsByDependencies (derivedFieldsOf chainSchema)) "b" <
      posIn (sortFieldsByDependencies (derivedFieldsOf chainSchema)) "c" := by
  have hder : ∀ g ∈ derivedFieldsOf chainSchema, g.derivedFrom.isSome = true := by
    intro g hg
    have := List.of_mem_filter hg
    simpa using this
  have hdetnone : detectCircularDependencies (derivedFieldsOf chainSchema) = none := by
    simp [detectCircularDependencies, detectLoop, hasCycle, cycleParents, findField,
      chainSchema, derivedFieldsOf, derivedFieldC, derivedFieldB, plainFieldA]
  have hacyc : AcyclicDeps (derivedFieldsOf chainSchema) :=
    detect_none_acyclic (derivedFieldsOf chainSchema) (by decide) hder hdetnone
  have hmemC : derivedFieldC ∈ derivedFieldsOf chainSchema := by
    show derivedFieldC ∈ [derivedFieldC, derivedFieldB]
    exact List.mem_cons_self _ _
  have hmemB : derivedFieldB ∈ derivedFieldsOf chainSchema := by
    show derivedFieldB ∈ [derivedFieldC, derivedFieldB]
    exact List.mem_cons_of_mem _ (List.mem_cons_self _ _)
  have hedge : dfEdge (derivedFieldsOf chainSchema) "c" "b" :=
    ⟨derivedFieldC, hmemC, rfl,
     { parentFields := ["b"], computationLogic := "b + 1" }, rfl,
     List.mem_singleton.mpr rfl, derivedFieldB, hmemB, rfl⟩
  exact C1_topological_order chainSchema (by decide) hacyc "c" "b"
    (Relation.TransGen.single hedge)

/- ----------------------------------------------------------------- -/
/- Claim C3: missing parents                                         -/
/- ----------------------------------------------------------------- -/

theorem computeValue_missing_iff (oracle : Oracle) (cfg : DerivedFieldConfig)
    (vals : Rmap) :
    ((computeValue oracle cfg vals).error.map DerivedFieldError.type =
      some DerivedErrorType.missing_parent) ↔
    ∃ q ∈ cfg.parentFields, hasKeyA vals q = false := by
  by_cases hm : 0 < (cfg.parentFields.filter (fun q => ! hasKeyA vals q)).length
  · apply iff_of_true
    · simp [computeValue, hm]
    · obtain ⟨q, hq⟩ := List.exists_mem_of_length_pos hm
      rw [List.mem_filter] at hq
      exact ⟨q, hq.1, by simpa using hq.2⟩
  · apply iff_of_false
    · rcases hb : (cfg.computationLogic == "")
      · rcases hs : safeEvaluate oracle cfg.computationLogic
            (createSafeContext cfg.parentFields vals) with msg | v
        · simp [computeValue, hm, hb, hs]
        · simp [computeValue, hm, hb, hs]
      · simp [computeValue, hm, hb]
    · intro ⟨q, hq, hkey⟩
      apply hm
      apply List.length_pos_of_mem (a := q)
      rw [List.mem_filter]
      exact ⟨hq, by simp [hkey]⟩

theorem C3_missing_parent (oracle : Oracle) (schema : FormSchema) (vals : Rmap)
    (f : FormField) (cfg : DerivedFieldConfig) (p : String)
    (pre post : List FormField)
    (hnd : (schema.fields.map FormField.id).Nodup)
    (hnocycle : detectCircularDependencies (derivedFieldsOf schema) = none)
    (hsplit : sortFieldsByDependencies (derivedFieldsOf schema) = pre ++ f :: post)
    (hcfg : f.derivedFrom = some cfg)
    (hp : p ∈ cfg.parentFields)
    (hmiss : hasKeyA (runDerivedPass oracle pre (vals, [])).1 p = false) :
    (∃ e, lookupA (updateDerivedFields oracle vals schema).errors f.id = some e ∧
      e.type = DerivedErrorType.missing_parent ∧ e.fieldId = some f.id) ∧
    lookupA (updateDerivedFields oracle vals schema).values f.id = lookupA vals f.id ∧
    (∀ (cfg' : DerivedFieldConfig) (vals' : Rmap),
      ((computeValue oracle cfg' vals').error.map DerivedFieldError.type =
          some DerivedErrorType.missing_parent ↔
        ∃ q ∈ cfg'.parentFields, hasKeyA vals' q = false)) := by
  have hnd' : ((derivedFieldsOf schema).map FormField.id).Nodup := by
    apply List.Nodup.sublist _ hnd
    exact List.Sublist.map FormField.id (List.filter_sublist schema.fields)
  have hder : ∀ g ∈ derivedFieldsOf schema, g.derivedFrom.isSome = true := by
    intro g hg
    have := List.of_mem_filter hg
    simpa using this
  have hacyc : AcyclicDeps (derivedFieldsOf schema) :=
    detect_none_acyclic (derivedFieldsOf schema) hnd' hder hnocycle
  have hinit : GoodS (derivedFieldsOf schema) ⟨[], [], []⟩ := by
    refine ⟨?_, List.nodup_nil, ?_⟩
    · intro x
      simp
    · intro pre' x post' heq
      exact absurd heq (by simp)
  obtain ⟨hG, _, _, _⟩ :=
    sortLoop_invariant (derivedFieldsOf schema) hnd' hder hacyc
      (derivedFieldsOf schema) ⟨[], [], []⟩ (fun _ hx => hx) hinit rfl
  have hndS : ((sortFieldsByDependencies (derivedFieldsOf schema)).map
      FormField.id).Nodup := hG.2.1
  rw [hsplit, List.map_append, List.map_cons] at hndS
  rw [List.nodup_append] at hndS
  obtain ⟨hndpre, hndrest, hdisj⟩ := hndS
  have hfpre : ∀ g ∈ pre, g.id ≠ f.id := by
    intro g hg heq
    exact hdisj (List.mem_map.mpr ⟨g, hg, rfl⟩) (heq ▸ List.mem_cons_self f.id _)
  have hfpost : ∀ g ∈ post, g.id ≠ f.id := by
    intro g hg heq
    have hnotin := (List.nodup_cons.mp hndrest).1
    exact hnotin (heq ▸ List.mem_map.mpr ⟨g, hg, rfl⟩)
  -- the working state when f's turn comes
  have hmissf : ∃ q ∈ cfg.parentFields,
      hasKeyA (runDerivedPass oracle pre (vals, [])).1 q = false := ⟨p, hp, hmiss⟩
  have herrtype := (computeValue_missing_iff oracle cfg
    (runDerivedPass oracle pre (vals, [])).1).mpr hmissf
  obtain ⟨err, herr, htype⟩ : ∃ err,
      (computeValue oracle cfg (runDerivedPass oracle pre (vals, [])).1).error =
        some err ∧ err.type = DerivedErrorType.missing_parent := by
    rcases he : (computeValue oracle cfg (runDerivedPass oracle pre (vals, [])).1).error
      with _ | err
    · rw [he] at herrtype
      exact absurd herrtype (by simp)
    · rw [he] at herrtype
      simp only [Option.map_some'] at herrtype
      exact ⟨err, rfl, by injection herrtype⟩
  have hstep : processField oracle (runDerivedPass oracle pre (vals, [])) f =
      ((runDerivedPass oracle pre (vals, [])).1,
       setA (runDerivedPass oracle pre (vals, [])).2 f.id
         { err with fieldId := some f.id }) := by
    have := ((processField_spec oracle (runDerivedPass oracle pre (vals, [])) f).2
      cfg hcfg).2 err herr
    exact this
  have hupd : updateDerivedFields oracle vals schema =
      { values := (runDerivedPass oracle (pre ++ f :: post) (vals, [])).1,
        errors := (runDerivedPass oracle (pre ++ f :: post) (vals, [])).2 } := by
    unfold updateDerivedFields
    simp only [hnocycle, hsplit]
  have hpass : runDerivedPass oracle (pre ++ f :: post) (vals, []) =
      runDerivedPass oracle post
        (processField oracle (runDerivedPass oracle pre (vals, [])) f) := by
    unfold runDerivedPass
    rw [List.foldl_append, List.foldl_cons]
  refine ⟨?_, ?_, fun cfg' vals' => computeValue_missing_iff oracle cfg' vals'⟩
  · refine ⟨{ err with fieldId := some f.id }, ?_, htype, rfl⟩
    rw [hupd]
    show lookupA (runDerivedPass oracle (pre ++ f :: post) (vals, [])).2 f.id = _
    rw [hpass, hstep]
    have hframe := (runDerivedPass_frame oracle post
      ((runDerivedPass oracle pre (vals, [])).1,
       setA (runDerivedPass oracle pre (vals, [])).2 f.id
         { err with fieldId := some f.id }) f.id hfpost).2
    rw [hframe]
    exact lookupA_setA_self _ f.id _
  · rw [hupd]
    show lookupA (runDerivedPass oracle (pre ++ f :: post) (vals, [])).1 f.id = _
    rw [hpass, hstep]
    have hframe := (runDerivedPass_frame oracle post
      ((runDerivedPass oracle pre (vals, [])).1,
       setA (runDerivedPass oracle pre (vals, [])).2 f.id
         { err with fieldId := some f.id }) f.id hfpost).1
    rw [hframe]
    exact (runDerivedPass_frame oracle pre (vals, []) f.id hfpre).1

/-- C3 witness: the spec's own example — a derived field whose parent id
`nonexistent` has no entry — yields a `missing_parent` error for the
field and leaves its value entry unchanged. -/
theorem C3_witness :
    (∃ e, lookupA (updateDerivedFields nullOracle [] orphanSchema).errors "o" =
        some e ∧ e.type = DerivedErrorType.missing_parent ∧ e.fieldId = some "o") ∧
    lookupA (updateDerivedFields nullOracle [] orphanSchema).values "o" =
      lookupA ([] : Rmap) "o" := by
  have hnocycle : detectCircularDependencies (derivedFieldsOf orphanSchema) = none := by
    simp [detectCircularDependencies, detectLoop, hasCycle, cycleParents, findField,
      orphanSchema, derivedFieldsOf, orphanField]
  have hsplit : sortFieldsByDependencies (derivedFieldsOf orphanSchema) =
      [] ++ orphanField :: [] := by
    simp [sortFieldsByDependencies, sortLoop, visitField, visitParents, findField,
      orphanSchema, derivedFieldsOf, orphanField]
  have h := C3_missing_parent nullOracle orphanSchema [] orphanField
    { parentFields := ["nonexistent"], computationLogic := "nonexistent" }
    "nonexistent" [] [] (by decide) hnocycle hsplit rfl (by decide) (by decide)
  exact ⟨h.1, h.2.1⟩

end FormCore
